import Mathlib

/-!
# Mapa_Cartografico: identity gate and pin synchronisation (`web/app.js`)

A shallow embedding of `web/app.js` in Lean 4.

* The JavaScript runtime pieces the script calls (`parseInt`, `Number::toString`,
  `JSON.stringify`, `JSON.parse`, `ToString`, `ToBoolean`, `TextEncoder`, `Map.set`,
  `localStorage`) are modelled from ECMAScript / the web platform as executable functions.
* Strings are Lean strings (sequences of Unicode scalar values); lone surrogates are outside
  the model.
* Numbers are IEEE binary64 values carried exactly: a finite value is `± num / 2 ^ den2`.
  The sign of zero is not tracked (no operation of the script observes it).
* `crypto.subtle.digest('SHA-256', _)` is a parameter `digest`; the outcome of a `fetch`
  is an input (`FetchOutcome`); the Leaflet map is a list of markers.
* The platform calls themselves are taken to work: `prompt` answers, `localStorage` accepts
  the write, the digest is available, and every `fetch` settles (resolves or is rejected).
-/

namespace MapaCartografico

/-! ## Errors -/

/-- The exceptions the modelled code can raise. -/
inductive JSErr where
  | syntaxError
  | typeError
  | networkError
  deriving DecidableEq, Repr

/-! ## Numbers -/

/-- A JavaScript Number. `fin neg num den2` is the finite value `(-1)^neg * num / 2^den2`,
kept canonical: zero is `fin false 0 0`, and `num` is odd whenever `den2 > 0`. -/
inductive JSNum where
  | nan
  | inf (neg : Bool)
  | fin (neg : Bool) (num : Nat) (den2 : Nat)
  deriving DecidableEq, Repr

/-- The number `+0`. -/
def JSNum.zero : JSNum := .fin false 0 0

/-- The Number of a natural number that is exactly representable (used for literals). -/
def JSNum.ofNat (n : Nat) : JSNum := .fin false n 0

/-- `Number.isFinite`. -/
def JSNum.isFinite : JSNum → Bool
  | .fin _ _ _ => true
  | _ => false

/-- Binary logarithm by halving, with `fuel` steps. -/
def log2Aux : Nat → Nat → Nat
  | 0, _ => 0
  | fuel + 1, n => if n < 2 then 0 else log2Aux fuel (n / 2) + 1

/-- The integer `floor (log2 n)` (and `0` for `n = 0`). -/
def log2 (n : Nat) : Nat := log2Aux n n

/-- The canonical Number of `± m / 2^k`. -/
def mkDyadic (neg : Bool) (m k : Nat) : JSNum :=
  if m = 0 then JSNum.zero
  else
    let g := Nat.gcd m (2 ^ k)
    .fin neg (m / g) (log2 (2 ^ k / g))

/-- The integer `floor (log2 (a / b))` for positive `a`, `b`. -/
def ratioLog2 (a b : Nat) : Int :=
  let e0 : Int := (log2 a : Int) - (log2 b : Int)
  if 0 ≤ e0 then
    if b * 2 ^ e0.toNat ≤ a then e0 else e0 - 1
  else
    if b ≤ a * 2 ^ (-e0).toNat then e0 else e0 - 1

/-- The Number nearest to `± a / b` (round to nearest, ties to even; overflow gives an
infinity, underflow gives zero): the `𝔽` of ECMAScript on a positive rational. -/
def roundRatio (neg : Bool) (a b : Nat) : JSNum :=
  if a = 0 ∨ b = 0 then JSNum.zero
  else
    let E := ratioLog2 a b
    let u : Int := max (E - 52) (-1074)
    let num := if 0 ≤ u then a else a * 2 ^ (-u).toNat
    let den := if 0 ≤ u then b * 2 ^ u.toNat else b
    let q := num / den
    let r := num % den
    let m := if den < 2 * r ∨ (2 * r = den ∧ q % 2 = 1) then q + 1 else q
    if 0 ≤ u then
      if 2 ^ 1024 ≤ m * 2 ^ u.toNat then .inf neg else .fin neg (m * 2 ^ u.toNat) 0
    else mkDyadic neg m (-u).toNat

/-- The Number denoted by the decimal `± m * 10^e10`. -/
def decToDouble (neg : Bool) (m : Nat) (e10 : Int) : JSNum :=
  if 0 ≤ e10 then roundRatio neg (m * 10 ^ e10.toNat) 1
  else roundRatio neg m (10 ^ (-e10).toNat)

/-! ### Decimal digits -/

/-- The character of a decimal digit. -/
def digitChar (d : Nat) : Char := Char.ofNat (48 + d)

/-- Whether a character is one of `0`..`9`. -/
def isDigit (c : Char) : Bool := 48 ≤ c.toNat && c.toNat ≤ 57

/-- The value of a decimal digit character. -/
def digitVal (c : Char) : Nat := c.toNat - 48

/-- Decimal digits of `n`, most significant first, pushed in front of `acc`. -/
def natDigitsAux : Nat → Nat → List Char → List Char
  | 0, _, acc => acc
  | fuel + 1, n, acc =>
    if n < 10 then digitChar n :: acc
    else natDigitsAux fuel (n / 10) (digitChar (n % 10) :: acc)

/-- The decimal numeral of `n` (no leading zeros; `0` is `"0"`). -/
def natDigits (n : Nat) : List Char := natDigitsAux (n + 1) n []

/-- The value of a run of decimal digits read after the value `acc`. -/
def digitsValue (acc : Nat) : List Char → Nat
  | [] => acc
  | c :: cs => digitsValue (acc * 10 + digitVal c) cs

/-- Split off the longest prefix of decimal digits. -/
def takeDigits : List Char → List Char × List Char
  | [] => ([], [])
  | c :: cs =>
    if isDigit c then ((takeDigits cs).1.cons c, (takeDigits cs).2) else ([], c :: cs)

/-- Remove trailing zeros of the decimal numeral of `s`, counting them into the exponent. -/
def stripZeros : Nat → Nat → Int → Nat × Int
  | 0, s, e => (s, e)
  | fuel + 1, s, e => if s ≠ 0 ∧ s % 10 = 0 then stripZeros fuel (s / 10) (e + 1) else (s, e)

/-! ### `Number::toString` -/

/-- The decimal exponent `n` of `a / 2^d > 0`: `10^(n-1) ≤ a / 2^d < 10^n`; the search for
values below one tries `n = 0, -1, ...` with `fuel` steps. -/
def decExponentSmall : Nat → Nat → Nat → Nat → Int
  | 0, _, _, j => -(j : Int)
  | fuel + 1, a, d, j =>
    if 2 ^ d ≤ a * 10 ^ (j + 1) then -(j : Int) else decExponentSmall fuel a d (j + 1)

/-- The decimal exponent `n` of the positive value `a / 2^d`. -/
def decExponent (a d : Nat) : Int :=
  if 2 ^ d ≤ a then ((natDigits (a / 2 ^ d)).length : Int)
  else decExponentSmall (d + 1) a d 0

/-- The candidates with `k` significant digits for the value `x = a / 2^d` of decimal
exponent `n0`: the two `k`-digit decimals around `x`, trailing zeros removed, that round
to `x`; the nearer one first when both do (the even one on a tie). -/
def shortestAt (a d : Nat) (n0 : Int) (k : Nat) : Option (Nat × Int) :=
  let e10 : Int := n0 - k
  let num := if e10 ≤ 0 then a * 10 ^ (-e10).toNat else a
  let den := if e10 ≤ 0 then 2 ^ d else 2 ^ d * 10 ^ e10.toNat
  let lo := num / den
  let r := num % den
  let x := mkDyadic false a d
  let cLo := stripZeros (k + 1) lo e10
  let cHi := stripZeros (k + 1) (lo + 1) e10
  let okLo := decide (lo ≠ 0) && decide (decToDouble false cLo.1 cLo.2 = x)
  let okHi := decide (decToDouble false cHi.1 cHi.2 = x)
  if okLo && okHi then
    if 2 * r < den ∨ (2 * r = den ∧ lo % 2 = 0) then some cLo else some cHi
  else if okLo then some cLo
  else if okHi then some cHi
  else none

/-- The shortest decimal `(s, e10)` with `𝔽 (s * 10^e10) = a / 2^d`, as `Number::toString`
chooses it; the exact decimal expansion of the value is the last candidate tried. -/
def shortestDecimal (a d : Nat) : Nat × Int :=
  let n0 := decExponent a d
  let kmax := (max 1 (n0 + d)).toNat
  match (List.range kmax).findSome? (fun i => shortestAt a d n0 (i + 1)) with
  | some c => c
  | none => stripZeros (kmax + 1) (a * 5 ^ d) (-(d : Int))

/-- A list of `n` zeros. -/
def zeros (n : Nat) : List Char := List.replicate n '0'

/-- The text of the positive decimal `s * 10^e10` (`s` without trailing zeros), laid out as
`Number::toString` does: plain digits up to 21 integer digits, a decimal point for small
fractions, exponent form otherwise. -/
def formatDecimal (s : Nat) (e10 : Int) : List Char :=
  let ds := natDigits s
  let k := ds.length
  let n : Int := k + e10
  if (k : Int) ≤ n ∧ n ≤ 21 then ds ++ zeros e10.toNat
  else if 0 < n ∧ n ≤ 21 then ds.take n.toNat ++ '.' :: ds.drop n.toNat
  else if -6 < n ∧ n ≤ 0 then '0' :: '.' :: (zeros (-n).toNat ++ ds)
  else
    let ex : Int := n - 1
    let sign := if 0 ≤ ex then '+' else '-'
    let tail := 'e' :: sign :: natDigits ex.natAbs
    if k = 1 then ds ++ tail else ds.take 1 ++ '.' :: (ds.drop 1 ++ tail)

/-- The characters of `Number::toString` (radix 10). -/
def numToChars : JSNum → List Char
  | .nan => "NaN".toList
  | .inf false => "Infinity".toList
  | .inf true => "-Infinity".toList
  | .fin neg a d =>
    if a = 0 then ['0']
    else
      let c := shortestDecimal a d
      if neg then '-' :: formatDecimal c.1 c.2 else formatDecimal c.1 c.2

/-- `Number::toString`: the string of a Number. -/
def numToString (x : JSNum) : String := String.mk (numToChars x)

/-! ### `parseInt(_, 10)` -/

/-- The white space `parseInt` skips in front of a numeral (`StrWhiteSpaceChar`). -/
def isStrWhiteSpace (c : Char) : Bool :=
  let n := c.toNat
  (9 ≤ n && n ≤ 13) || n = 32 || n = 160 || n = 5760 || (8192 ≤ n && n ≤ 8202) ||
    n = 8232 || n = 8233 || n = 8239 || n = 8287 || n = 12288 || n = 65279

/-- Drop the leading characters `p` accepts. -/
def dropLeading (p : Char → Bool) : List Char → List Char
  | [] => []
  | c :: cs => if p c then dropLeading p cs else c :: cs

/-- `parseInt(input, 10)` on a prompt response (`none` is `null`, which `parseInt` reads as
the string `null`): skip white space, an optional sign, then the longest run of decimal
digits; no digit gives `NaN`, otherwise the Number nearest to the integer read. -/
def parseInt10 (input : Option String) : JSNum :=
  let s := dropLeading isStrWhiteSpace (match input with
    | none => "null".toList
    | some t => t.toList)
  let neg := match s with
    | c :: _ => decide (c = '-')
    | [] => false
  let body := match s with
    | c :: r => if c = '-' ∨ c = '+' then r else c :: r
    | [] => []
  let ds := (takeDigits body).1
  if ds = [] then .nan else roundRatio neg (digitsValue 0 ds) 1

/-! ## Values -/

/-- A JavaScript value as far as the script handles them: primitives, arrays and plain
objects (own properties in insertion order). -/
inductive JSVal where
  | undefined
  | null
  | bool (b : Bool)
  | num (n : JSNum)
  | str (s : String)
  | arr (elems : List JSVal)
  | obj (props : List (String × JSVal))

/-- The double quote character. -/
def dq : Char := Char.ofNat 34

/-- The backslash character. -/
def bs : Char := Char.ofNat 92

/-- `ToBoolean`. -/
def truthy : JSVal → Bool
  | .undefined => false
  | .null => false
  | .bool b => b
  | .num (.fin _ a _) => decide (a ≠ 0)
  | .num .nan => false
  | .num (.inf _) => true
  | .str s => decide (s ≠ "")
  | .arr _ => true
  | .obj _ => true

/-- The first own property named `k`. -/
def lookupProp (k : String) : List (String × JSVal) → Option JSVal
  | [] => none
  | (k', v) :: rest => if k' = k then some v else lookupProp k rest

/-- Property read `v.k` for a name `k` that no built-in prototype defines (`note`, `id`):
a `TypeError` on `null` and `undefined`, the own property of an object, `undefined`
otherwise. -/
def getProp (v : JSVal) (k : String) : Except JSErr JSVal :=
  match v with
  | .undefined => .error .typeError
  | .null => .error .typeError
  | .obj props => .ok ((lookupProp k props).getD .undefined)
  | _ => .ok .undefined

/-- `CreateDataProperty`: overwrite the property `k` in place, or append it. -/
def setProp : List (String × JSVal) → String → JSVal → List (String × JSVal)
  | [], k, v => [(k, v)]
  | (k', v') :: rest, k, v => if k' = k then (k, v) :: rest else (k', v') :: setProp rest k v

mutual
/-- `ToString` of a value (as string concatenation and template literals apply it). An
object converts through `toString`, then `valueOf`: a plain object gives
`[object Object]`, unless it has an own property `toString` (never callable for data read
from JSON), in which case no method yields a primitive and the conversion throws a
`TypeError`. An array joins the conversions of its elements with commas. -/
def toStr : JSVal → Except JSErr String
  | .undefined => .ok "undefined"
  | .null => .ok "null"
  | .bool b => .ok (if b then "true" else "false")
  | .num n => .ok (numToString n)
  | .str s => .ok s
  | .arr elems => joinElems elems
  | .obj props =>
    match lookupProp "toString" props with
    | some _ => .error .typeError
    | none => .ok "[object Object]"
/-- `Array.prototype.join` with the separator `,`: `null` and `undefined` elements give the
empty string. -/
def joinElems : List JSVal → Except JSErr String
  | [] => .ok ""
  | x :: rest =>
    match (match x with
      | .undefined => Except.ok ""
      | .null => Except.ok ""
      | .bool b => toStr (.bool b)
      | .num n => toStr (.num n)
      | .str s => toStr (.str s)
      | .arr e => toStr (.arr e)
      | .obj p => toStr (.obj p)) with
    | .error e => .error e
    | .ok a =>
      match rest with
      | [] => .ok a
      | _ :: _ =>
        match joinElems rest with
        | .error e => .error e
        | .ok b => .ok (a ++ "," ++ b)
end

/-! ## JSON text -/

/-- A hexadecimal digit, lower case. -/
def hexDigit (n : Nat) : Char := if n < 10 then Char.ofNat (48 + n) else Char.ofNat (87 + n)

/-- The escape of one character inside a JSON string (`QuoteJSONString`). -/
def escapeChar (c : Char) : List Char :=
  if c = dq then [bs, dq]
  else if c = bs then [bs, bs]
  else if c.toNat = 8 then [bs, 'b']
  else if c.toNat = 12 then [bs, 'f']
  else if c.toNat = 10 then [bs, 'n']
  else if c.toNat = 13 then [bs, 'r']
  else if c.toNat = 9 then [bs, 't']
  else if c.toNat < 32 then [bs, 'u', '0', '0', hexDigit (c.toNat / 16), hexDigit (c.toNat % 16)]
  else [c]

/-- The escaped characters of a string, without the surrounding quotes. -/
def escapeChars : List Char → List Char
  | [] => []
  | c :: cs => escapeChar c ++ escapeChars cs

/-- `QuoteJSONString`. -/
def quoteChars (s : String) : List Char := dq :: (escapeChars s.toList ++ [dq])

mutual
/-- `SerializeJSONProperty`: the JSON text of a value. A non-finite number is `null`; inside
an array `undefined` is `null`; a property whose value is `undefined` is left out. -/
def stringifyChars : JSVal → List Char
  | .undefined => "undefined".toList
  | .null => "null".toList
  | .bool b => if b then "true".toList else "false".toList
  | .num n => if n.isFinite then numToChars n else "null".toList
  | .str s => quoteChars s
  | .arr elems => '[' :: (stringifyElems elems ++ [']'])
  | .obj props => '{' :: (stringifyProps true props ++ ['}'])
/-- The elements of an array, separated by commas. -/
def stringifyElems : List JSVal → List Char
  | [] => []
  | x :: rest =>
    (match x with
      | .undefined => "null".toList
      | .null => stringifyChars .null
      | .bool b => stringifyChars (.bool b)
      | .num n => stringifyChars (.num n)
      | .str s => stringifyChars (.str s)
      | .arr e => stringifyChars (.arr e)
      | .obj p => stringifyChars (.obj p)) ++
    (match rest with
      | [] => []
      | _ :: _ => ',' :: stringifyElems rest)
/-- The properties of an object; `first` tells that no property has been written yet. -/
def stringifyProps (first : Bool) : List (String × JSVal) → List Char
  | [] => []
  | (k, v) :: rest =>
    match v with
    | .undefined => stringifyProps first rest
    | .null => (if first then [] else [',']) ++ quoteChars k ++ ':' :: stringifyChars .null ++
        stringifyProps false rest
    | .bool b => (if first then [] else [',']) ++ quoteChars k ++ ':' :: stringifyChars (.bool b) ++
        stringifyProps false rest
    | .num n => (if first then [] else [',']) ++ quoteChars k ++ ':' :: stringifyChars (.num n) ++
        stringifyProps false rest
    | .str s => (if first then [] else [',']) ++ quoteChars k ++ ':' :: stringifyChars (.str s) ++
        stringifyProps false rest
    | .arr e => (if first then [] else [',']) ++ quoteChars k ++ ':' :: stringifyChars (.arr e) ++
        stringifyProps false rest
    | .obj p => (if first then [] else [',']) ++ quoteChars k ++ ':' :: stringifyChars (.obj p) ++
        stringifyProps false rest
end

/-- `JSON.stringify` of a value that is not `undefined` itself. -/
def JSON.stringify (v : JSVal) : String := String.mk (stringifyChars v)

/-- JSON white space: space, tab, line feed, carriage return. -/
def isJsonWs (c : Char) : Bool := c.toNat = 32 || c.toNat = 9 || c.toNat = 10 || c.toNat = 13

/-- Skip JSON white space. -/
def skipWs (cs : List Char) : List Char := dropLeading isJsonWs cs

/-- The value of a hexadecimal digit, either case. -/
def hexVal (c : Char) : Option Nat :=
  let n := c.toNat
  if 48 ≤ n ∧ n ≤ 57 then some (n - 48)
  else if 97 ≤ n ∧ n ≤ 102 then some (n - 87)
  else if 65 ≤ n ∧ n ≤ 70 then some (n - 55)
  else none

/-- The code unit written by four hexadecimal digits. -/
def hex4 (a b c d : Char) : Option Nat :=
  match hexVal a, hexVal b, hexVal c, hexVal d with
  | some x, some y, some z, some w => some (x * 4096 + y * 256 + z * 16 + w)
  | _, _, _, _ => none

/-- The character of a single-letter escape `\e`. -/
def unescape (e : Char) : Option Char :=
  if e = dq then some dq
  else if e = bs then some bs
  else if e = '/' then some '/'
  else if e = 'b' then some (Char.ofNat 8)
  else if e = 'f' then some (Char.ofNat 12)
  else if e = 'n' then some (Char.ofNat 10)
  else if e = 'r' then some (Char.ofNat 13)
  else if e = 't' then some (Char.ofNat 9)
  else none

/-- The characters of a sequence of code units, each a Unicode scalar value or a UTF-16
surrogate: a high surrogate followed by a low one is the character of the pair; a lone
surrogate (which a Lean string cannot hold) is read as U+FFFD. -/
def combineSurrogates : List Nat → List Char
  | [] => []
  | [u] => if 55296 ≤ u ∧ u ≤ 57343 then [Char.ofNat 65533] else [Char.ofNat u]
  | u :: v :: rest =>
    if 55296 ≤ u ∧ u ≤ 56319 ∧ 56320 ≤ v ∧ v ≤ 57343 then
      Char.ofNat (65536 + (u - 55296) * 1024 + (v - 56320)) :: combineSurrogates rest
    else if 55296 ≤ u ∧ u ≤ 57343 then Char.ofNat 65533 :: combineSurrogates (v :: rest)
    else Char.ofNat u :: combineSurrogates (v :: rest)

/-- The code units of a JSON string after its opening quote, up to the closing quote, and
the input after it. Raw control characters are refused; `\uXXXX` gives the code unit
`XXXX`. -/
def parseStringUnits : List Char → Option (List Nat × List Char)
  | [] => none
  | c :: cs =>
    if c = dq then some ([], cs)
    else if c = bs then
      match cs with
      | [] => none
      | e :: rest =>
        if e = 'u' then
          match rest with
          | a :: b :: c2 :: d :: rest2 =>
            match hex4 a b c2 d with
            | none => none
            | some u => (parseStringUnits rest2).map fun p => (u :: p.1, p.2)
          | _ => none
        else
          match unescape e with
          | none => none
          | some ch => (parseStringUnits rest).map fun p => (ch.toNat :: p.1, p.2)
    else if c.toNat < 32 then none
    else (parseStringUnits cs).map fun p => (c.toNat :: p.1, p.2)

/-- The characters of a JSON string after its opening quote, and the input after its
closing quote. -/
def parseStringBody (cs : List Char) : Option (List Char × List Char) :=
  (parseStringUnits cs).map fun p => (combineSurrogates p.1, p.2)

/-- The fraction of a JSON number: a point and at least one digit, or nothing. -/
def parseFraction (cs : List Char) : Option (List Char × List Char) :=
  match cs with
  | c :: r =>
    if c = '.' then
      if (takeDigits r).1 = [] then none else some (takeDigits r)
    else some ([], cs)
  | [] => some ([], [])

/-- The exponent of a JSON number: `e` or `E`, an optional sign and at least one digit, or
nothing. -/
def parseExponent (cs : List Char) : Option (Int × List Char) :=
  match cs with
  | c :: r =>
    if c = 'e' ∨ c = 'E' then
      let negExp := match r with
        | s :: _ => decide (s = '-')
        | [] => false
      let body := match r with
        | s :: r2 => if s = '-' ∨ s = '+' then r2 else s :: r2
        | [] => []
      if (takeDigits body).1 = [] then none
      else
        let v : Int := digitsValue 0 (takeDigits body).1
        some (if negExp then -v else v, (takeDigits body).2)
    else some (0, cs)
  | [] => some (0, [])

/-- A JSON number without its sign: `(0 | [1-9][0-9]*) (. [0-9]+)? ([eE] [+-]? [0-9]+)?`,
read as the Number nearest to its decimal value, with the sign `neg`. -/
def parseUnsigned (neg : Bool) (body : List Char) : Option (JSNum × List Char) :=
  match body with
  | [] => none
  | c :: r1 =>
    if isDigit c then
      let intDs := if c = '0' then [c] else c :: (takeDigits r1).1
      let r2 := if c = '0' then r1 else (takeDigits r1).2
      match parseFraction r2 with
      | none => none
      | some (fracDs, r3) =>
        match parseExponent r3 with
        | none => none
        | some (ex, r4) =>
          some (decToDouble neg (digitsValue 0 (intDs ++ fracDs)) (ex - fracDs.length), r4)
    else none

/-- A JSON number at the head of the input: an optional minus sign, then the digits. -/
def parseNumber (cs : List Char) : Option (JSNum × List Char) :=
  match cs with
  | [] => none
  | c :: r => if c = '-' then parseUnsigned true r else parseUnsigned false (c :: r)

mutual
/-- A JSON value at the head of the input (after white space), and the input after it.
`fuel` bounds the chain of calls; every call reads a character before it calls on, and
`JSON.parse` supplies the length of the input plus one. -/
def parseValue : Nat → List Char → Option (JSVal × List Char)
  | 0, _ => none
  | fuel + 1, cs =>
    match skipWs cs with
    | [] => none
    | c :: rest =>
      if c = '{' then
        match skipWs rest with
        | c2 :: r2 => if c2 = '}' then some (.obj [], r2) else parseMembers fuel rest []
        | [] => none
      else if c = '[' then
        match skipWs rest with
        | c2 :: r2 => if c2 = ']' then some (.arr [], r2) else parseElems fuel rest []
        | [] => none
      else if c = dq then
        (parseStringBody rest).map fun p => (.str (String.mk p.1), p.2)
      else if c = 't' then
        match rest with
        | 'r' :: 'u' :: 'e' :: r => some (.bool true, r)
        | _ => none
      else if c = 'f' then
        match rest with
        | 'a' :: 'l' :: 's' :: 'e' :: r => some (.bool false, r)
        | _ => none
      else if c = 'n' then
        match rest with
        | 'u' :: 'l' :: 'l' :: r => some (.null, r)
        | _ => none
      else (parseNumber (c :: rest)).map fun p => (.num p.1, p.2)
/-- The members of an object after `{` or a comma, up to the closing brace; `acc` holds
the properties read so far (a repeated name overwrites). -/
def parseMembers : Nat → List Char → List (String × JSVal) → Option (JSVal × List Char)
  | 0, _, _ => none
  | fuel + 1, cs, acc =>
    match skipWs cs with
    | [] => none
    | c :: r1 =>
      if c = dq then
        match parseStringBody r1 with
        | none => none
        | some (k, r2) =>
          match skipWs r2 with
          | [] => none
          | c3 :: r3 =>
            if c3 = ':' then
              match parseValue fuel r3 with
              | none => none
              | some (v, r4) =>
                match skipWs r4 with
                | [] => none
                | c5 :: r5 =>
                  if c5 = ',' then parseMembers fuel r5 (setProp acc (String.mk k) v)
                  else if c5 = '}' then some (.obj (setProp acc (String.mk k) v), r5)
                  else none
            else none
      else none
/-- The elements of an array after `[` or a comma, up to the closing bracket. -/
def parseElems : Nat → List Char → List JSVal → Option (JSVal × List Char)
  | 0, _, _ => none
  | fuel + 1, cs, acc =>
    match parseValue fuel cs with
    | none => none
    | some (v, r) =>
      match skipWs r with
      | [] => none
      | c :: r2 =>
        if c = ',' then parseElems fuel r2 (acc ++ [v])
        else if c = ']' then some (.arr (acc ++ [v]), r2)
        else none
end

/-- `JSON.parse` of a text: one JSON value between optional white space; anything else is a
`SyntaxError`. -/
def JSON.parse (text : String) : Except JSErr JSVal :=
  match parseValue (text.length + 1) text.toList with
  | some (v, rest) => if skipWs rest = [] then .ok v else .error .syntaxError
  | none => .error .syntaxError

/-- `JSON.parse` applied to any value: the argument is converted with `ToString` first. -/
def JSON.parseVal (v : JSVal) : Except JSErr JSVal :=
  match toStr v with
  | .ok text => JSON.parse text
  | .error e => .error e

/-! ## Browser environment -/

/-- `localStorage`: keys with their stored strings. -/
abbrev Storage := List (String × String)

/-- `localStorage.getItem(key)`; `none` is `null`. -/
def getItem : Storage → String → Option String
  | [], _ => none
  | (k, v) :: rest, key => if k = key then some v else getItem rest key

/-- `localStorage.setItem(key, value)`. -/
def setItem : Storage → String → String → Storage
  | [], key, value => [(key, value)]
  | (k, v) :: rest, key, value =>
    if k = key then (key, value) :: rest else (k, v) :: setItem rest key value

/-- An HTTP request handed to `fetch`. -/
structure Request where
  method : String
  url : String
  contentType : String
  body : String
  deriving DecidableEq, Repr

/-- How a `fetch` settles: the promise is rejected (network failure), or it resolves with a
response whose `json()` yields a value (`none`: the body is not JSON, `json()` rejects). -/
inductive FetchOutcome where
  | rejected
  | resolved (json : Option JSVal)

/-- The value of `await fetch(...)`: the response, here its decoded body. -/
def awaitFetch : FetchOutcome → Except JSErr (Option JSVal)
  | .rejected => .error .networkError
  | .resolved json => .ok json

/-- The value of `await res.json()`. -/
def awaitJson : Option JSVal → Except JSErr JSVal
  | none => .error .syntaxError
  | some v => .ok v

/-- `try { body } catch { handler }`. -/
def tryCatch {α : Type} (body : Except JSErr α) (handler : Except JSErr α) : Except JSErr α :=
  match body with
  | .ok a => .ok a
  | .error _ => handler

/-! ## `hashText` -/

/-- The UTF-8 bytes of a character (`TextEncoder`). -/
def utf8Bytes (c : Char) : List Nat :=
  let n := c.toNat
  if n < 128 then [n]
  else if n < 2048 then [192 + n / 64, 128 + n % 64]
  else if n < 65536 then [224 + n / 4096, 128 + n / 64 % 64, 128 + n % 64]
  else [240 + n / 262144, 128 + n / 4096 % 64, 128 + n / 64 % 64, 128 + n % 64]

/-- `new TextEncoder().encode(t)`. -/
def encodeUtf8 : List Char → List Nat
  | [] => []
  | c :: cs => utf8Bytes c ++ encodeUtf8 cs

/-- Hexadecimal digits of `n`, most significant first, pushed in front of `acc`. -/
def hexDigitsAux : Nat → Nat → List Char → List Char
  | 0, _, acc => acc
  | fuel + 1, n, acc =>
    if n < 16 then hexDigit n :: acc
    else hexDigitsAux fuel (n / 16) (hexDigit (n % 16) :: acc)

/-- `b.toString(16)`. -/
def toString16 (b : Nat) : List Char := hexDigitsAux (b + 1) b []

/-- `s.padStart(2, '0')`. -/
def padStart2 (cs : List Char) : List Char := List.replicate (2 - cs.length) '0' ++ cs

/-- The rendering `Array.from(bytes).map(b => b.toString(16).padStart(2,'0')).join('')`. -/
def hexRender : List Nat → List Char
  | [] => []
  | b :: bs => padStart2 (toString16 b) ++ hexRender bs

/-- `hashText(t)` (lines 7-11): the digest of the UTF-8 bytes of `t`, rendered in hexadecimal. `digest`
stands for `crypto.subtle.digest('SHA-256', _)`. -/
def hashText (digest : List Nat → List Nat) (t : String) : String :=
  String.mk (hexRender (digest (encodeUtf8 t.toList)))

/-! ## `ensureIdentity` -/

/-- What one call of `ensureIdentity` sees of the browser. -/
structure Browser where
  /-- The constant `API`, which is `location.origin` (line 1). -/
  API : String
  /-- `navigator.userAgent`. -/
  userAgent : String
  /-- The value `today()` has during the call (line 4): the date as `YYYY-MM-DD`. -/
  today : String
  /-- `localStorage` when the call starts. -/
  storage : Storage

/-- What one call of `ensureIdentity` did: the value it returned or the error it raised, the
storage it left, the prompts it showed and the requests it sent. -/
structure IdentityRun where
  result : Except JSErr JSVal
  storage : Storage
  prompts : List String
  requests : List Request

/-- The name kept for a prompt response: `if (!name) name = 'Invitado'`. -/
def nameOrDefault : Option String → String
  | none => "Invitado"
  | some s => if s = "" then "Invitado" else s

/-- The age kept for a prompt response: `parseInt(_, 10)`, then
`if (!Number.isFinite(age)) age = 0`. -/
def ageOrDefault (ageAns : Option String) : JSNum :=
  if (parseInt10 ageAns).isFinite then parseInt10 ageAns else JSNum.zero

/-- The text that is hashed: `name + '|' + age + '|' + today() + '|sal'`. -/
def hashInput (name : String) (age : JSNum) (date : String) : String :=
  name ++ "|" ++ numToString age ++ "|" ++ date ++ "|sal"

/-- The record `{name, age, user_hash}`. -/
def identityRecord (name : String) (age : JSNum) (userHash : String) : JSVal :=
  .obj [("name", .str name), ("age", .num age), ("user_hash", .str userHash)]

/-- The body of `POST /visit` (line 25); `device_hint` is `navigator.userAgent.slice(0,80)`,
here the first 80 characters (the same for a user agent of the Basic Multilingual Plane). -/
def visitPayload (userHash name : String) (age : JSNum) (date userAgent : String) : JSVal :=
  .obj [("user_hash", .str userHash), ("name", .str name), ("age", .num age),
    ("date", .str date), ("device_hint", .str (String.mk (userAgent.toList.take 80)))]

/-- The two prompts of `ensureIdentity`, in the order they are shown. -/
def identityPrompts : List String :=
  ["Tu nombre (solo para control de acceso del día):", "Tu edad:"]

/-- Lines 19-30 of `ensureIdentity`, run when the day has no usable record: ask name and
age, apply the defaults, hash, send `POST /visit` inside `try { ... } catch {}`, store the
record and return it. -/
def firstVisit (digest : List Nat → List Nat) (env : Browser)
    (nameAns ageAns : Option String) (visit : FetchOutcome) : IdentityRun :=
  let name := nameOrDefault nameAns
  let age := ageOrDefault ageAns
  let user_hash := hashText digest (hashInput name age env.today)
  let payload := visitPayload user_hash name age env.today env.userAgent
  let request : Request :=
    { method := "POST", url := env.API ++ "/visit", contentType := "application/json",
      body := JSON.stringify payload }
  match tryCatch ((awaitFetch visit).map fun _ => ()) (.ok ()) with
  | .error e => { result := .error e, storage := env.storage, prompts := identityPrompts,
                  requests := [request] }
  | .ok _ =>
    let obj := identityRecord name age user_hash
    { result := .ok obj,
      storage := setItem env.storage ("visit-" ++ env.today) (JSON.stringify obj),
      prompts := identityPrompts, requests := [request] }

/-- `ensureIdentity()` (lines 14-31). `nameAns` and `ageAns` are what the user answers to
the two prompts if they are shown (`none`: cancelled); `visit` is how `POST /visit` settles
if it is sent. A stored text that is not empty is parsed and returned (line 17: `if
(cached) return JSON.parse(cached)`); otherwise the first-visit path runs. -/
def ensureIdentity (digest : List Nat → List Nat) (env : Browser)
    (nameAns ageAns : Option String) (visit : FetchOutcome) : IdentityRun :=
  match getItem env.storage ("visit-" ++ env.today) with
  | none => firstVisit digest env nameAns ageAns visit
  | some cached =>
    if cached = "" then firstVisit digest env nameAns ageAns visit
    else { result := JSON.parse cached, storage := env.storage, prompts := [], requests := [] }

/-! ## Pins and markers -/

/-- A pin as `addMarker` reads it. -/
structure Pin where
  id : JSVal
  type : String
  lat : JSNum
  lng : JSNum
  meta : JSVal

/-- `iconFromEmoji(emoji)` (lines 46-48): the `html` of the `divIcon`. -/
def iconFromEmoji (emoji : String) : String :=
  "<div style=\"font-size:24px\">" ++ emoji ++ "</div>"

/-- A marker on the map: where `L.marker` put it, its options, and the pin its two
handlers close over. -/
structure Marker where
  lat : JSNum
  lng : JSNum
  draggable : Bool
  icon : String
  pin : Pin

/-- The state `init` keeps: the markers added to the map, in order, and `markerById`. -/
structure MapState where
  markers : List Marker
  markerById : List (JSVal × Marker)

/-- `SameValueZero`, the key comparison of `Map`: primitives by value; an array or object is
only the same as itself, and every pin id that reaches `markerById.set` is freshly decoded,
so two such keys never are. -/
def sameValueZero : JSVal → JSVal → Bool
  | .undefined, .undefined => true
  | .null, .null => true
  | .bool a, .bool b => a == b
  | .num a, .num b => a == b
  | .str a, .str b => a == b
  | _, _ => false

/-- `Map.prototype.set`: overwrite the entry of the key in place, or append one. -/
def mapSet : List (JSVal × Marker) → JSVal → Marker → List (JSVal × Marker)
  | [], k, m => [(k, m)]
  | (k', m') :: rest, k, m =>
    if sameValueZero k' k then (k', m) :: rest else (k', m') :: mapSet rest k m

/-- `Map.prototype.get`. -/
def mapGet : List (JSVal × Marker) → JSVal → Option Marker
  | [], _ => none
  | (k', m') :: rest, k => if sameValueZero k' k then some m' else mapGet rest k

/-- The marker `addMarker(pin)` creates. -/
def markerOf (pin : Pin) : Marker :=
  { lat := pin.lat, lng := pin.lng, draggable := true, icon := iconFromEmoji pin.type,
    pin := pin }

/-- `addMarker(pin)` (lines 50-62): put a draggable marker at the pin and bind it under the pin's id. -/
def addMarker (st : MapState) (pin : Pin) : MapState :=
  { markers := st.markers ++ [markerOf pin],
    markerById := mapSet st.markerById pin.id (markerOf pin) }

/-- `pins.forEach(addMarker)` (line 64), on the list `GET /pins` returned. -/
def loadPins (st : MapState) (pins : List Pin) : MapState := pins.foldl addMarker st

/-- The state before any pin is loaded: `markerById = new Map()`. -/
def MapState.empty : MapState := { markers := [], markerById := [] }

/-- What a handler did: the requests it sent and how it ended. -/
structure HandlerRun (α : Type) where
  requests : List Request
  result : Except JSErr α

/-- The `dragend` handler of the marker of `pin` (lines 52-55), for a drag that ends at `(lat, lng)`;
`put` is how the request settles. -/
def dragend (API : String) (pin : Pin) (lat lng : JSNum) (put : FetchOutcome) :
    HandlerRun Unit :=
  match toStr pin.id with
  | .error e => { requests := [], result := .error e }
  | .ok id =>
    { requests := [{ method := "PUT", url := API ++ "/pins/" ++ id,
                     contentType := "application/json",
                     body := JSON.stringify (.obj [("lat", .num lat), ("lng", .num lng)]) }],
      result := (awaitFetch put).map fun _ => () }

/-- The text shown when a pin has no note. -/
def fallbackText : String := "Pin sin descripción"

/-- The `info` of the marker click handler (line 57):
`pin.meta ? (()=>{ try{return JSON.parse(pin.meta);}catch{return {}} })() : {}`. -/
def clickInfo (pin : Pin) : Except JSErr JSVal :=
  if truthy pin.meta then tryCatch (JSON.parseVal pin.meta) (.ok (.obj [])) else .ok (.obj [])

/-- The `text` of the marker click handler (line 58): `info && info.note ? info.note : 'Pin sin descripción'`. -/
def clickText (pin : Pin) : Except JSErr JSVal :=
  match clickInfo pin with
  | .error e => .error e
  | .ok info =>
    match (if truthy info then getProp info "note" else .ok info) with
    | .error e => .error e
    | .ok cond => if truthy cond then getProp info "note" else .ok (.str fallbackText)

/-- The `click` handler of the marker of `pin` (lines 56-60): the HTML it binds as popup,
`<b>${pin.type}</b><div>${text}</div>`. -/
def markerClick (pin : Pin) : Except JSErr String :=
  match clickText pin with
  | .error e => .error e
  | .ok text =>
    match toStr text with
    | .error e => .error e
    | .ok t => .ok ("<b>" ++ pin.type ++ "</b><div>" ++ t ++ "</div>")

/-- A create request that has been sent and not yet answered: the `body` of the handler. -/
structure PendingCreate where
  type : String
  lat : JSNum
  lng : JSNum
  note : String

/-- The `meta` object of a create body, `{note}`. -/
def noteMeta (note : String) : JSVal := .obj [("note", .str note)]

/-- The first half of the map `click` handler (lines 73-75), up to the `fetch`: ask for the note
(`prompt(...) || ''`), build the body, send `POST /pins`. -/
def clickStart (API currentType : String) (lat lng : JSNum) (noteAns : Option String) :
    PendingCreate × Request :=
  let note := match noteAns with
    | none => ""
    | some s => s
  ({ type := currentType, lat := lat, lng := lng, note := note },
   { method := "POST", url := API ++ "/pins", contentType := "application/json",
     body := JSON.stringify (.obj [("type", .str currentType), ("lat", .num lat),
       ("lng", .num lng), ("meta", noteMeta note)]) })

/-- The pin the handler hands to `addMarker`:
`{id, ...body, meta: JSON.stringify(body.meta)}`. -/
def createdPin (p : PendingCreate) (id : JSVal) : Pin :=
  { id := id, type := p.type, lat := p.lat, lng := p.lng,
    meta := .str (JSON.stringify (noteMeta p.note)) }

/-- The second half of the map `click` handler (lines 76-77), once the `fetch` has settled:
`const {id} = await res.json(); addMarker({id, ...body, meta: JSON.stringify(body.meta)})`. -/
def clickFinish (st : MapState) (p : PendingCreate) (post : FetchOutcome) :
    Except JSErr MapState :=
  match awaitFetch post with
  | .error e => .error e
  | .ok res =>
    match awaitJson res with
    | .error e => .error e
    | .ok v =>
      match getProp v "id" with
      | .error e => .error e
      | .ok id =>
        .ok (addMarker st (createdPin p id))

/-- The map `click` handler as a whole (lines 72-78). -/
def mapClick (API currentType : String) (st : MapState) (lat lng : JSNum)
    (noteAns : Option String) (post : FetchOutcome) : HandlerRun MapState :=
  { requests := [(clickStart API currentType lat lng noteAns).2],
    result := clickFinish st (clickStart API currentType lat lng noteAns).1 post }

/-! ## Auxiliary definitions used in the statements and proofs -/

/-- The sixteen characters of lower-case hexadecimal. -/
def isLowerHex (c : Char) : Bool := (48 ≤ c.toNat && c.toNat ≤ 57) || (97 ≤ c.toNat && c.toNat ≤ 102)

/-- The run of `ensureIdentity` when the day has no usable record. -/
def freshRun (digest : List Nat → List Nat) (env : Browser) (nameAns ageAns : Option String) :
    IdentityRun :=
  let name := nameOrDefault nameAns
  let age := ageOrDefault ageAns
  let h := hashText digest (hashInput name age env.today)
  { result := .ok (identityRecord name age h),
    storage := setItem env.storage ("visit-" ++ env.today)
      (JSON.stringify (identityRecord name age h)),
    prompts := identityPrompts,
    requests := [{ method := "POST", url := env.API ++ "/visit",
                   contentType := "application/json",
                   body := JSON.stringify (visitPayload h name age env.today env.userAgent) }] }

/-- The input does not go on with a digit. -/
def noDigitAhead (rest : List Char) : Prop := ∀ c tl, rest = c :: tl → isDigit c = false

/-- The rounded quotient `n / 2^u` (ties to even). -/
def roundQ (n u : Nat) : Nat :=
  if 2 ^ u < 2 * (n % 2 ^ u) ∨ (2 * (n % 2 ^ u) = 2 ^ u ∧ n / 2 ^ u % 2 = 1) then n / 2 ^ u + 1
  else n / 2 ^ u

/-- A finite Number that is an integer: zero, or `± v` for a positive integer `v` that
rounding leaves unchanged. -/
def IsIntegerDouble (x : JSNum) : Prop :=
  x = JSNum.zero ∨ ∃ neg v, 0 < v ∧ x = .fin neg v 0 ∧ roundRatio false v 1 = .fin false v 0

/-- The input does not go on as a number would: no digit, point or exponent mark ahead. -/
def numEnd (rest : List Char) : Prop :=
  ∀ c tl, rest = c :: tl → isDigit c = false ∧ c ≠ '.' ∧ c ≠ 'e' ∧ c ≠ 'E'

/-- The JSON text of the record `{name, age, user_hash}`. -/
def recordChars (name : String) (age : JSNum) (userHash : String) : List Char :=
  '{' :: (quoteChars "name" ++ ':' :: (quoteChars name ++ ',' ::
    (quoteChars "age" ++ ':' :: (numToChars age ++ ',' ::
      (quoteChars "user_hash" ++ ':' :: (quoteChars userHash ++ ['}']))))))

/-- The state after a handler ran from `st`: the one it produced, or `st` itself when it
raised before changing anything. -/
def stateAfter (st : MapState) (r : Except JSErr MapState) : MapState :=
  match r with
  | .ok st' => st'
  | .error _ => st

/-- A stored text that `ensureIdentity` wrote on some earlier call: the JSON text of a
record `{name, age, user_hash}` whose age came through the age prompt. -/
def WrittenByGate (cached : String) : Prop :=
  ∃ (name : String) (ageAns : Option String) (userHash : String),
    cached = JSON.stringify (identityRecord name (ageOrDefault ageAns) userHash)

/-- A stand-in for the SHA-256 digest in the concrete examples (32 bytes, as any digest). -/
def sampleDigest : List Nat → List Nat := fun _ => List.replicate 32 171

/-- The browser of the concrete examples, with an empty `localStorage`. -/
def sampleBrowser : Browser :=
  { API := "http://localhost:8000", userAgent := "Mozilla/5.0", today := "2025-01-02",
    storage := [] }

/-- The pin of the load scenario: `{id:"1", type:"📍", lat:10, lng:20, meta:null}`. -/
def samplePin : Pin :=
  { id := .str "1", type := "📍", lat := JSNum.ofNat 10, lng := JSNum.ofNat 20, meta := .null }

/-! # Theorems -/

set_option maxRecDepth 100000 in
theorem hexByte_two (b : Nat) (hb : b < 256) :
    padStart2 (toString16 b) = [hexDigit (b / 16), hexDigit (b % 16)] := by
  revert b
  decide

theorem hexDigit_lower (n : Nat) (hn : n < 16) : isLowerHex (hexDigit n) = true := by
  revert n
  decide

theorem hexRender_length (d : List Nat) (hd : ∀ b ∈ d, b < 256) :
    (hexRender d).length = 2 * d.length := by
  induction d with
  | nil => rfl
  | cons b bs ih =>
    have hb : b < 256 := hd b (List.mem_cons_self b bs)
    have ih' := ih (fun x hx => hd x (List.mem_cons_of_mem b hx))
    simp only [hexRender, hexByte_two b hb, List.length_append, List.length_cons,
      List.length_nil, ih']
    omega

theorem hexRender_lower (d : List Nat) (hd : ∀ b ∈ d, b < 256) :
    ∀ c ∈ hexRender d, isLowerHex c = true := by
  induction d with
  | nil => intro c hc; simp [hexRender] at hc
  | cons b bs ih =>
    have hb : b < 256 := hd b (List.mem_cons_self b bs)
    have ih' := ih (fun x hx => hd x (List.mem_cons_of_mem b hx))
    intro c hc
    simp only [hexRender, hexByte_two b hb, List.mem_append, List.mem_cons,
      List.mem_singleton, List.not_mem_nil, or_false] at hc
    rcases hc with (h | h) | h
    · subst h; exact hexDigit_lower _ (by omega)
    · subst h; exact hexDigit_lower _ (Nat.mod_lt _ (by decide))
    · exact ih' c h

theorem firstVisit_eq (digest : List Nat → List Nat) (env : Browser)
    (nameAns ageAns : Option String) (visit : FetchOutcome) :
    firstVisit digest env nameAns ageAns visit = freshRun digest env nameAns ageAns := by
  unfold firstVisit freshRun
  cases visit <;> rfl

theorem ensureIdentity_fresh (digest : List Nat → List Nat) (env : Browser)
    (nameAns ageAns : Option String) (visit : FetchOutcome)
    (h : getItem env.storage ("visit-" ++ env.today) = none ∨
      getItem env.storage ("visit-" ++ env.today) = some "") :
    ensureIdentity digest env nameAns ageAns visit = freshRun digest env nameAns ageAns := by
  unfold ensureIdentity
  rcases h with h | h
  · rw [h]
    exact firstVisit_eq digest env nameAns ageAns visit
  · rw [h]
    simp only [if_true]
    exact firstVisit_eq digest env nameAns ageAns visit

theorem ensureIdentity_cached (digest : List Nat → List Nat) (env : Browser)
    (nameAns ageAns : Option String) (visit : FetchOutcome) (c : String)
    (h : getItem env.storage ("visit-" ++ env.today) = some c) (hc : c ≠ "") :
    ensureIdentity digest env nameAns ageAns visit =
      { result := JSON.parse c, storage := env.storage, prompts := [], requests := [] } := by
  unfold ensureIdentity
  rw [h]
  simp only [hc, if_false]

/-! ### Decimal digits -/

theorem digitChar_isDigit (d : Nat) (hd : d < 10) : isDigit (digitChar d) = true := by
  revert d; decide

theorem digitChar_val (d : Nat) (hd : d < 10) : digitVal (digitChar d) = d := by
  revert d; decide

theorem digitChar_ne_zero (d : Nat) (hd : d < 10) (h0 : d ≠ 0) : digitChar d ≠ '0' := by
  revert d; decide

theorem natDigitsAux_succ (fuel : Nat) : ∀ (n : Nat) (acc : List Char), n < fuel →
    natDigitsAux (fuel + 1) n acc = natDigitsAux fuel n acc := by
  induction fuel with
  | zero => intro n acc h; omega
  | succ f ih =>
    intro n acc h
    show (if n < 10 then digitChar n :: acc
      else natDigitsAux (f + 1) (n / 10) (digitChar (n % 10) :: acc)) =
      (if n < 10 then digitChar n :: acc
      else natDigitsAux f (n / 10) (digitChar (n % 10) :: acc))
    by_cases h10 : n < 10
    · simp [h10]
    · simp only [h10, if_false]
      exact ih _ _ (by omega)

theorem natDigitsAux_fuel (fuel n : Nat) (acc : List Char) (h : n < fuel) :
    natDigitsAux fuel n acc = natDigitsAux (n + 1) n acc := by
  induction fuel with
  | zero => omega
  | succ f ih =>
    by_cases hf : n < f
    · rw [natDigitsAux_succ f n acc hf, ih hf]
    · have : f = n := by omega
      subst this; rfl

theorem natDigitsAux_acc (fuel : Nat) : ∀ (n : Nat) (acc : List Char),
    natDigitsAux fuel n acc = natDigitsAux fuel n [] ++ acc := by
  induction fuel with
  | zero => intro n acc; rfl
  | succ f ih =>
    intro n acc
    show (if n < 10 then digitChar n :: acc
      else natDigitsAux f (n / 10) (digitChar (n % 10) :: acc)) =
      (if n < 10 then [digitChar n]
      else natDigitsAux f (n / 10) [digitChar (n % 10)]) ++ acc
    by_cases h10 : n < 10
    · simp [h10]
    · simp only [h10, if_false]
      rw [ih _ (digitChar (n % 10) :: acc), ih _ [digitChar (n % 10)]]
      simp

theorem natDigits_lt (n : Nat) (h : n < 10) : natDigits n = [digitChar n] := by
  simp [natDigits, natDigitsAux, h]

theorem natDigits_ge (n : Nat) (h : 10 ≤ n) :
    natDigits n = natDigits (n / 10) ++ [digitChar (n % 10)] := by
  have h10 : ¬ n < 10 := by omega
  show (if n < 10 then [digitChar n]
      else natDigitsAux n (n / 10) [digitChar (n % 10)]) = _
  simp only [h10, if_false]
  rw [natDigitsAux_acc, natDigitsAux_fuel n (n / 10) [] (by omega)]
  rfl

theorem natDigits_all (n : Nat) : ∀ c ∈ natDigits n, isDigit c = true := by
  induction n using Nat.strong_induction_on with
  | _ n ih =>
    by_cases h : n < 10
    · rw [natDigits_lt n h]
      intro c hc
      simp only [List.mem_singleton] at hc
      subst hc
      exact digitChar_isDigit n h
    · rw [natDigits_ge n (by omega)]
      intro c hc
      simp only [List.mem_append, List.mem_singleton] at hc
      rcases hc with hc | hc
      · exact ih (n / 10) (by omega) c hc
      · subst hc
        exact digitChar_isDigit _ (Nat.mod_lt _ (by decide))

theorem natDigits_head (n : Nat) (hn : 0 < n) :
    ∃ c tl, natDigits n = c :: tl ∧ c ≠ '0' ∧ isDigit c = true := by
  induction n using Nat.strong_induction_on with
  | _ n ih =>
    by_cases h : n < 10
    · exact ⟨digitChar n, [], natDigits_lt n h, digitChar_ne_zero n h (by omega),
        digitChar_isDigit n h⟩
    · obtain ⟨c, tl, h1, h2, h3⟩ := ih (n / 10) (by omega) (by omega)
      exact ⟨c, tl ++ [digitChar (n % 10)], by rw [natDigits_ge n (by omega), h1]; rfl, h2, h3⟩

theorem digitsValue_append (xs : List Char) : ∀ (acc : Nat) (ys : List Char),
    digitsValue acc (xs ++ ys) = digitsValue (digitsValue acc xs) ys := by
  induction xs with
  | nil => intro acc ys; rfl
  | cons x xs ih =>
    intro acc ys
    show digitsValue (acc * 10 + digitVal x) (xs ++ ys) =
      digitsValue (digitsValue (acc * 10 + digitVal x) xs) ys
    exact ih _ _

theorem digitsValue_natDigits (n : Nat) : digitsValue 0 (natDigits n) = n := by
  induction n using Nat.strong_induction_on with
  | _ n ih =>
    by_cases h : n < 10
    · rw [natDigits_lt n h]
      show 0 * 10 + digitVal (digitChar n) = n
      rw [digitChar_val n h]
      omega
    · calc digitsValue 0 (natDigits n)
          = digitsValue 0 (natDigits (n / 10) ++ [digitChar (n % 10)]) := by
            rw [natDigits_ge n (by omega)]
        _ = digitsValue (digitsValue 0 (natDigits (n / 10))) [digitChar (n % 10)] :=
            digitsValue_append _ _ _
        _ = digitsValue (n / 10) [digitChar (n % 10)] :=
            congrArg (fun v => digitsValue v [digitChar (n % 10)]) (ih (n / 10) (by omega))
        _ = n / 10 * 10 + digitVal (digitChar (n % 10)) := rfl
        _ = n := by
            rw [digitChar_val _ (Nat.mod_lt n (by decide : 0 < 10))]
            omega

theorem digitsValue_zeros (z : Nat) : ∀ acc : Nat, digitsValue acc (zeros z) = acc * 10 ^ z := by
  induction z with
  | zero => intro acc; show acc = acc * 10 ^ 0; simp
  | succ z ih =>
    intro acc
    have h0 : digitVal '0' = 0 := rfl
    show digitsValue (acc * 10 + digitVal '0') (zeros z) = acc * 10 ^ (z + 1)
    rw [ih, h0]
    ring

theorem zeros_all (z : Nat) : ∀ c ∈ zeros z, isDigit c = true := by
  intro c hc
  have := List.eq_of_mem_replicate hc
  subst this
  rfl

theorem takeDigits_append (ds rest : List Char) (hds : ∀ c ∈ ds, isDigit c = true)
    (hrest : noDigitAhead rest) : takeDigits (ds ++ rest) = (ds, rest) := by
  induction ds with
  | nil =>
    cases rest with
    | nil => rfl
    | cons c tl => simp [takeDigits, hrest c tl rfl]
  | cons d ds ih =>
    have hd : isDigit d = true := hds d (List.mem_cons_self d ds)
    have := ih (fun c hc => hds c (List.mem_cons_of_mem d hc))
    simp [takeDigits, hd, this]

/-! ### Binary logarithm -/

theorem log2Aux_eq_log (fuel : Nat) : ∀ n, n ≤ fuel → log2Aux fuel n = Nat.log 2 n := by
  induction fuel with
  | zero =>
    intro n h
    have : n = 0 := by omega
    subst this
    show 0 = Nat.log 2 0
    simp
  | succ f ih =>
    intro n h
    show (if n < 2 then 0 else log2Aux f (n / 2) + 1) = Nat.log 2 n
    by_cases h2 : n < 2
    · simp only [h2, if_true]
      exact (Nat.log_of_lt h2).symm
    · simp only [h2, if_false]
      have h3 : Nat.log 2 n = Nat.log 2 (n / 2) + 1 :=
        Nat.log_of_one_lt_of_le (by decide) (by omega)
      rw [h3, ih (n / 2) (by omega)]

theorem log2_eq_log (n : Nat) : log2 n = Nat.log 2 n := log2Aux_eq_log n n (le_refl n)

theorem log2_pow_le (n : Nat) (hn : n ≠ 0) : 2 ^ log2 n ≤ n := by
  rw [log2_eq_log]; exact Nat.pow_log_le_self 2 hn

theorem lt_log2_pow (n : Nat) : n < 2 ^ (log2 n + 1) := by
  rw [log2_eq_log]; exact Nat.lt_pow_succ_log_self (by decide) n

theorem log2_eq_of (n k : Nat) (h1 : 2 ^ k ≤ n) (h2 : n < 2 ^ (k + 1)) : log2 n = k := by
  rw [log2_eq_log]
  exact Nat.log_eq_of_pow_le_of_lt_pow h1 h2

theorem log2_one : log2 1 = 0 := rfl

/-! ### Rounding an integer -/

theorem ratioLog2_one (n : Nat) (hn : 0 < n) : ratioLog2 n 1 = (log2 n : Int) := by
  unfold ratioLog2
  have h1 : ((log2 n : Int) - (log2 1 : Int)) = (log2 n : Int) := by
    rw [log2_one]; simp
  simp only [h1]
  have h2 : (0 : Int) ≤ (log2 n : Int) := Int.ofNat_nonneg _
  have h3 : 1 * 2 ^ ((log2 n : Int)).toNat ≤ n := by
    rw [Int.toNat_ofNat, one_mul]
    exact log2_pow_le n (by omega)
  rw [if_pos h2, if_pos h3]

theorem mkDyadic_scaled (neg : Bool) (n k : Nat) (hn : 0 < n) :
    mkDyadic neg (n * 2 ^ k) k = .fin neg n 0 := by
  unfold mkDyadic
  have hp : 0 < 2 ^ k := by positivity
  have h0 : n * 2 ^ k ≠ 0 := by positivity
  have hg : Nat.gcd (n * 2 ^ k) (2 ^ k) = 2 ^ k := Nat.gcd_mul_left_left _ _
  simp only [h0, if_false, hg]
  rw [Nat.mul_div_cancel _ hp, Nat.div_self hp, log2_one]

theorem roundRatio_small (neg : Bool) (n : Nat) (hn : 0 < n) (hlt : n < 2 ^ 53) :
    roundRatio neg n 1 = .fin neg n 0 := by
  have hL : log2 n ≤ 52 := by
    by_contra hc
    have h1 : 2 ^ 53 ≤ 2 ^ log2 n := Nat.pow_le_pow_right (by decide) (by omega)
    have h2 := log2_pow_le n (by omega)
    omega
  unfold roundRatio
  have hn0 : ¬ (n = 0 ∨ (1 : Nat) = 0) := by omega
  rw [if_neg hn0]
  simp only [ratioLog2_one n hn]
  have hu : max ((log2 n : Int) - 52) (-1074) = (log2 n : Int) - 52 := by omega
  rw [hu]
  by_cases h52 : log2 n = 52
  · have hu0 : ((log2 n : Int) - 52) = 0 := by omega
    simp only [hu0]
    simp only [le_refl, if_true, Int.toNat_zero, pow_zero, mul_one, Nat.div_one, Nat.mod_one]
    have hc : ¬ (1 < 2 * 0 ∨ 2 * 0 = 1 ∧ n % 2 = 1) := by omega
    rw [if_neg hc]
    have hbig : (2 : Nat) ^ 53 ≤ 2 ^ 1024 := Nat.pow_le_pow_right (by decide) (by decide)
    have hc2 : ¬ (2 ^ 1024 ≤ n) := by omega
    rw [if_neg hc2]
  · have hneg : ¬ (0 : Int) ≤ (log2 n : Int) - 52 := by omega
    have htn : (-((log2 n : Int) - 52)).toNat = 52 - log2 n := by omega
    simp only [hneg, if_false, htn, Nat.div_one, Nat.mod_one]
    have hc : ¬ (1 < 2 * 0 ∨ 2 * 0 = 1 ∧ n * 2 ^ (52 - log2 n) % 2 = 1) := by omega
    rw [if_neg hc]
    exact mkDyadic_scaled neg n _ hn

theorem roundRatio_large (neg : Bool) (n : Nat) (hge : 2 ^ 53 ≤ n) :
    roundRatio neg n 1 =
      if 2 ^ 1024 ≤ roundQ n (log2 n - 52) * 2 ^ (log2 n - 52) then .inf neg
      else .fin neg (roundQ n (log2 n - 52) * 2 ^ (log2 n - 52)) 0 := by
  have hn : 0 < n := lt_of_lt_of_le (by positivity) hge
  have hL : 53 ≤ log2 n := by
    by_contra hc
    have h1 : 2 ^ (log2 n + 1) ≤ 2 ^ 53 := Nat.pow_le_pow_right (by decide) (by omega)
    have h2 := lt_log2_pow n
    omega
  unfold roundRatio roundQ
  have hn0 : ¬ (n = 0 ∨ (1 : Nat) = 0) := by omega
  rw [if_neg hn0]
  simp only [ratioLog2_one n hn]
  have hu : max ((log2 n : Int) - 52) (-1074) = (log2 n : Int) - 52 := by omega
  rw [hu]
  have hpos : (0 : Int) ≤ (log2 n : Int) - 52 := by omega
  have htn : ((log2 n : Int) - 52).toNat = log2 n - 52 := by omega
  simp only [hpos, if_true, htn, one_mul]

theorem roundRatio_exact (neg : Bool) (m u : Nat) (hm1 : 2 ^ 52 ≤ m) (hm2 : m ≤ 2 ^ 53)
    (hu : 1 ≤ u) (hv : m * 2 ^ u < 2 ^ 1024) :
    roundRatio neg (m * 2 ^ u) 1 = .fin neg (m * 2 ^ u) 0 := by
  have hp : 0 < 2 ^ u := by positivity
  have hge : 2 ^ 53 ≤ m * 2 ^ u := by
    calc 2 ^ 53 = 2 ^ 52 * 2 ^ 1 := by norm_num
      _ ≤ m * 2 ^ u := Nat.mul_le_mul hm1 (Nat.pow_le_pow_right (by decide) hu)
  rw [roundRatio_large neg _ hge]
  by_cases hlt : m < 2 ^ 53
  · have hlog : log2 (m * 2 ^ u) = 52 + u := by
      apply log2_eq_of
      · rw [pow_add]; exact Nat.mul_le_mul_right _ hm1
      · rw [show 52 + u + 1 = 53 + u by omega, pow_add]
        exact Nat.mul_lt_mul_of_pos_right hlt hp
    have hsub : 52 + u - 52 = u := by omega
    rw [hlog, hsub]
    have hq : roundQ (m * 2 ^ u) u = m := by
      unfold roundQ
      rw [Nat.mul_mod_left, Nat.mul_div_cancel _ hp]
      have hc : ¬ (2 ^ u < 2 * 0 ∨ 2 * 0 = 2 ^ u ∧ m % 2 = 1) := by omega
      rw [if_neg hc]
    rw [hq, if_neg (by omega)]
  · have hm : m = 2 ^ 53 := by omega
    subst hm
    have hv' : 2 ^ 53 * 2 ^ u = 2 ^ 52 * 2 ^ (u + 1) := by
      rw [pow_succ]; norm_num; ring
    have hlog : log2 (2 ^ 53 * 2 ^ u) = 53 + u := by
      apply log2_eq_of
      · rw [pow_add]
      · rw [show 53 + u + 1 = 54 + u by omega, pow_add]
        exact Nat.mul_lt_mul_of_pos_right (by norm_num) hp
    have hsub : 53 + u - 52 = u + 1 := by omega
    rw [hlog, hsub]
    have hp1 : 0 < 2 ^ (u + 1) := by positivity
    have hq : roundQ (2 ^ 53 * 2 ^ u) (u + 1) = 2 ^ 52 := by
      unfold roundQ
      rw [hv', Nat.mul_mod_left, Nat.mul_div_cancel _ hp1]
      have hc : ¬ (2 ^ (u + 1) < 2 * 0 ∨ 2 * 0 = 2 ^ (u + 1) ∧ 2 ^ 52 % 2 = 1) := by omega
      rw [if_neg hc]
    rw [hq, ← hv', if_neg (by omega)]

theorem roundQ_bounds (n : Nat) (hge : 2 ^ 53 ≤ n) :
    2 ^ 52 ≤ roundQ n (log2 n - 52) ∧ roundQ n (log2 n - 52) ≤ 2 ^ 53 ∧ 1 ≤ log2 n - 52 := by
  have hn : 0 < n := lt_of_lt_of_le (by positivity) hge
  have hL : 53 ≤ log2 n := by
    by_contra hc
    have h1 : 2 ^ (log2 n + 1) ≤ 2 ^ 53 := Nat.pow_le_pow_right (by decide) (by omega)
    have h2 := lt_log2_pow n
    omega
  have hp : 0 < 2 ^ (log2 n - 52) := by positivity
  have h1 : 2 ^ 52 * 2 ^ (log2 n - 52) ≤ n := by
    rw [← pow_add, show 52 + (log2 n - 52) = log2 n by omega]
    exact log2_pow_le n (by omega)
  have h2 : n < 2 ^ 53 * 2 ^ (log2 n - 52) := by
    rw [← pow_add, show 53 + (log2 n - 52) = log2 n + 1 by omega]
    exact lt_log2_pow n
  have hq1 : 2 ^ 52 ≤ n / 2 ^ (log2 n - 52) := (Nat.le_div_iff_mul_le hp).2 h1
  have hq2 : n / 2 ^ (log2 n - 52) < 2 ^ 53 := (Nat.div_lt_iff_lt_mul hp).2 h2
  unfold roundQ
  split <;> omega

theorem roundRatio_nat (neg : Bool) (n : Nat) :
    roundRatio neg n 1 = .inf neg ∨ IsIntegerDouble (roundRatio neg n 1) := by
  by_cases h0 : n = 0
  · subst h0
    right; left; rfl
  by_cases hlt : n < 2 ^ 53
  · right; right
    exact ⟨neg, n, by omega, roundRatio_small neg n (by omega) hlt,
      roundRatio_small false n (by omega) hlt⟩
  · have hge : 2 ^ 53 ≤ n := by omega
    obtain ⟨b1, b2, b3⟩ := roundQ_bounds n hge
    rw [roundRatio_large neg n hge]
    by_cases hov : 2 ^ 1024 ≤ roundQ n (log2 n - 52) * 2 ^ (log2 n - 52)
    · left; rw [if_pos hov]
    · right; right
      rw [if_neg hov]
      refine ⟨neg, _, ?_, rfl, roundRatio_exact false _ _ b1 b2 b3 (by omega)⟩
      have : 0 < 2 ^ (log2 n - 52) := by positivity
      have : 0 < roundQ n (log2 n - 52) := lt_of_lt_of_le (by positivity) b1
      positivity

/-! ### The shortest decimal of an integer -/

theorem stripZeros_spec (fuel : Nat) : ∀ (s : Nat) (e : Int),
    (s ≠ 0 → (stripZeros fuel s e).1 ≠ 0) ∧ e ≤ (stripZeros fuel s e).2 ∧
      (stripZeros fuel s e).1 * 10 ^ ((stripZeros fuel s e).2 - e).toNat = s := by
  induction fuel with
  | zero =>
    intro s e
    show (s ≠ 0 → s ≠ 0) ∧ e ≤ e ∧ s * 10 ^ (e - e).toNat = s
    simp
  | succ f ih =>
    intro s e
    show (s ≠ 0 → (if s ≠ 0 ∧ s % 10 = 0 then stripZeros f (s / 10) (e + 1) else (s, e)).1 ≠ 0) ∧
      e ≤ (if s ≠ 0 ∧ s % 10 = 0 then stripZeros f (s / 10) (e + 1) else (s, e)).2 ∧
      (if s ≠ 0 ∧ s % 10 = 0 then stripZeros f (s / 10) (e + 1) else (s, e)).1 *
        10 ^ ((if s ≠ 0 ∧ s % 10 = 0 then stripZeros f (s / 10) (e + 1) else (s, e)).2 - e).toNat
        = s
    by_cases h : s ≠ 0 ∧ s % 10 = 0
    · rw [if_pos h]
      obtain ⟨i1, i2, i3⟩ := ih (s / 10) (e + 1)
      refine ⟨fun _ => i1 (by omega), by omega, ?_⟩
      have hexp : ((stripZeros f (s / 10) (e + 1)).2 - e).toNat =
          ((stripZeros f (s / 10) (e + 1)).2 - (e + 1)).toNat + 1 := by omega
      rw [hexp, pow_succ, ← mul_assoc, i3]
      omega
    · rw [if_neg h]
      simp

theorem decToDouble_nonneg (neg : Bool) (m : Nat) (e : Int) (he : 0 ≤ e) :
    decToDouble neg m e = roundRatio neg (m * 10 ^ e.toNat) 1 := by
  unfold decToDouble
  rw [if_pos he]

theorem mkDyadic_int (neg : Bool) (a : Nat) (ha : 0 < a) : mkDyadic neg a 0 = .fin neg a 0 := by
  have := mkDyadic_scaled neg a 0 ha
  simpa using this

theorem shortestAt_sound (a : Nat) (ha : 0 < a) (n0 : Int) (k : Nat) (hk : (k : Int) ≤ n0)
    (c : Nat × Int) (h : shortestAt a 0 n0 k = some c) :
    0 < c.1 ∧ 0 ≤ c.2 ∧ decToDouble false c.1 c.2 = .fin false a 0 := by
  unfold shortestAt at h
  rw [mkDyadic_int false a ha] at h
  dsimp only at h
  generalize ((if n0 - (k : Int) ≤ 0 then a * 10 ^ (-(n0 - (k : Int))).toNat else a) /
      (if n0 - (k : Int) ≤ 0 then 2 ^ 0 else 2 ^ 0 * 10 ^ (n0 - (k : Int)).toNat)) = lo at h
  generalize ((if n0 - (k : Int) ≤ 0 then a * 10 ^ (-(n0 - (k : Int))).toNat else a) %
      (if n0 - (k : Int) ≤ 0 then 2 ^ 0 else 2 ^ 0 * 10 ^ (n0 - (k : Int)).toNat)) = r at h
  generalize (if n0 - (k : Int) ≤ 0 then 2 ^ 0 else 2 ^ 0 * 10 ^ (n0 - (k : Int)).toNat) = den at h
  obtain ⟨l1, l2, _⟩ := stripZeros_spec (k + 1) lo (n0 - k)
  obtain ⟨u1, u2, _⟩ := stripZeros_spec (k + 1) (lo + 1) (n0 - k)
  generalize stripZeros (k + 1) lo (n0 - k) = cLo at h l1 l2
  generalize stripZeros (k + 1) (lo + 1) (n0 - k) = cHi at h u1 u2
  have hHi : 0 < cHi.1 := Nat.pos_of_ne_zero (u1 (by omega))
  split_ifs at h with c1 c2 c3 c4
  · simp only [Option.some.injEq] at h
    subst h
    simp only [Bool.and_eq_true, decide_eq_true_eq] at c1
    exact ⟨Nat.pos_of_ne_zero (l1 c1.1.1), by omega, c1.1.2⟩
  · simp only [Option.some.injEq] at h
    subst h
    simp only [Bool.and_eq_true, decide_eq_true_eq] at c1
    exact ⟨hHi, by omega, c1.2⟩
  · simp only [Option.some.injEq] at h
    subst h
    simp only [Bool.and_eq_true, decide_eq_true_eq] at c3
    exact ⟨Nat.pos_of_ne_zero (l1 c3.1), by omega, c3.2⟩
  · simp only [Option.some.injEq] at h
    subst h
    simp only [decide_eq_true_eq] at c4
    exact ⟨hHi, by omega, c4⟩

theorem natDigits_length_pos (n : Nat) : 0 < (natDigits n).length := by
  by_cases h : n < 10
  · rw [natDigits_lt n h]; simp
  · rw [natDigits_ge n (by omega)]; simp

theorem shortestDecimal_sound (a : Nat) (ha : 0 < a)
    (hfix : roundRatio false a 1 = .fin false a 0) :
    0 < (shortestDecimal a 0).1 ∧ 0 ≤ (shortestDecimal a 0).2 ∧
      decToDouble false (shortestDecimal a 0).1 (shortestDecimal a 0).2 = .fin false a 0 := by
  have hexp : decExponent a 0 = ((natDigits a).length : Int) := by
    unfold decExponent
    rw [if_pos (by simpa using ha)]
    simp
  have hlen := natDigits_length_pos a
  unfold shortestDecimal
  dsimp only
  rw [hexp]
  have hk : (max (1 : Int) (((natDigits a).length : Int) + ((0 : Nat) : Int))).toNat =
      (natDigits a).length := by
    simp only [Nat.cast_zero, add_zero]
    omega
  rw [hk]
  cases hf : (List.range (natDigits a).length).findSome?
      (fun i => shortestAt a 0 ((natDigits a).length : Int) (i + 1)) with
  | some c =>
    obtain ⟨i, hi, hc⟩ := List.exists_of_findSome?_eq_some hf
    rw [List.mem_range] at hi
    exact shortestAt_sound a ha _ (i + 1) (by omega) c hc
  | none =>
    dsimp only
    obtain ⟨s1, s2, s3⟩ := stripZeros_spec ((natDigits a).length + 1) (a * 5 ^ 0) (-((0 : Nat) : Int))
    generalize stripZeros ((natDigits a).length + 1) (a * 5 ^ 0) (-((0 : Nat) : Int)) = c
      at s1 s2 s3
    simp only [Nat.cast_zero, neg_zero, pow_zero, mul_one, sub_zero] at s1 s2 s3
    refine ⟨Nat.pos_of_ne_zero (s1 (by omega)), s2, ?_⟩
    rw [decToDouble_nonneg false c.1 c.2 s2, s3, hfix]

/-! ### Reading back a printed integer -/

theorem numEnd_noDigit (rest : List Char) (h : numEnd rest) : noDigitAhead rest :=
  fun c tl hc => (h c tl hc).1

theorem parseFraction_none (rest : List Char) (h : numEnd rest) :
    parseFraction rest = some ([], rest) := by
  cases rest with
  | nil => rfl
  | cons c tl =>
    have hc := (h c tl rfl).2.1
    unfold parseFraction
    simp only [hc, if_false]

theorem parseExponent_none (rest : List Char) (h : numEnd rest) :
    parseExponent rest = some (0, rest) := by
  cases rest with
  | nil => rfl
  | cons c tl =>
    have hc := (h c tl rfl).2.2
    unfold parseExponent
    have : ¬ (c = 'e' ∨ c = 'E') := by tauto
    simp only [this, if_false]

theorem parseExponent_plus (v : Nat) (rest : List Char) (h : noDigitAhead rest) :
    parseExponent ('e' :: '+' :: (natDigits v ++ rest)) = some ((v : Int), rest) := by
  unfold parseExponent
  have ht := takeDigits_append (natDigits v) rest (natDigits_all v) h
  have hne : natDigits v ≠ [] := by
    have := natDigits_length_pos v
    intro hc; rw [hc] at this; simp at this
  simp only [true_or, if_true, or_true, ht, hne, if_false, digitsValue_natDigits]
  simp

theorem parseFraction_some (ds rest : List Char) (hds : ∀ c ∈ ds, isDigit c = true)
    (hne : ds ≠ []) (h : noDigitAhead rest) :
    parseFraction ('.' :: (ds ++ rest)) = some (ds, rest) := by
  unfold parseFraction
  have ht := takeDigits_append ds rest hds h
  simp only [if_true, ht, hne, if_false]

theorem noDigitAhead_e (l : List Char) : noDigitAhead ('e' :: l) := by
  intro c tl h
  simp only [List.cons.injEq] at h
  rw [← h.1]; rfl

theorem noDigitAhead_dot (l : List Char) : noDigitAhead ('.' :: l) := by
  intro c tl h
  simp only [List.cons.injEq] at h
  rw [← h.1]; rfl

theorem parseUnsigned_format (neg : Bool) (s : Nat) (e : Int) (hs : 0 < s) (he : 0 ≤ e)
    (rest : List Char) (hrest : numEnd rest) :
    parseUnsigned neg (formatDecimal s e ++ rest) = some (decToDouble neg s e, rest) := by
  obtain ⟨c, tl, hds, hc0, hcd⟩ := natDigits_head s hs
  have hall := natDigits_all s
  rw [hds] at hall
  have htl : ∀ x ∈ tl, isDigit x = true := fun x hx => hall x (List.mem_cons_of_mem c hx)
  have hval : digitsValue 0 (c :: tl) = s := by rw [← hds]; exact digitsValue_natDigits s
  unfold formatDecimal
  simp only [hds, List.length_cons]
  by_cases h21 : ((tl.length + 1 : Nat) : Int) + e ≤ 21
  · have hcond : ((tl.length + 1 : Nat) : Int) ≤ ((tl.length + 1 : Nat) : Int) + e ∧
        ((tl.length + 1 : Nat) : Int) + e ≤ 21 := ⟨by omega, h21⟩
    rw [if_pos hcond]
    have ht : takeDigits (tl ++ zeros e.toNat ++ rest) = (tl ++ zeros e.toNat, rest) :=
      takeDigits_append _ _ (fun x hx => by
        rcases List.mem_append.1 hx with h | h
        · exact htl x h
        · exact zeros_all _ x h) (numEnd_noDigit rest hrest)
    have hm : digitsValue 0 (c :: (tl ++ zeros e.toNat ++ [])) = s * 10 ^ e.toNat := by
      rw [List.append_nil, ← List.cons_append, digitsValue_append, hval, digitsValue_zeros]
    unfold parseUnsigned
    simp only [List.cons_append, List.append_assoc, hcd, if_true, hc0, if_false]
    rw [← List.append_assoc, ht]
    simp only [parseFraction_none rest hrest, parseExponent_none rest hrest]
    rw [hm]
    simp only [List.length_nil, Nat.cast_zero, sub_zero]
    rw [decToDouble_nonneg neg _ 0 (le_refl 0), decToDouble_nonneg neg s e he]
    simp
  · have hc1 : ¬ (((tl.length + 1 : Nat) : Int) ≤ ((tl.length + 1 : Nat) : Int) + e ∧
        ((tl.length + 1 : Nat) : Int) + e ≤ 21) := by omega
    have hc2 : ¬ (0 < ((tl.length + 1 : Nat) : Int) + e ∧
        ((tl.length + 1 : Nat) : Int) + e ≤ 21) := by omega
    have hc3 : ¬ (-6 < ((tl.length + 1 : Nat) : Int) + e ∧
        ((tl.length + 1 : Nat) : Int) + e ≤ 0) := by omega
    rw [if_neg hc1, if_neg hc2, if_neg hc3]
    have hex : (0 : Int) ≤ ((tl.length + 1 : Nat) : Int) + e - 1 := by omega
    simp only [hex, if_true]
    have hrd := numEnd_noDigit rest hrest
    obtain ⟨X, hX⟩ : ∃ X : Nat, (((tl.length + 1 : Nat) : Int) + e - 1).natAbs = X := ⟨_, rfl⟩
    have hXe : (X : Int) = ((tl.length + 1 : Nat) : Int) + e - 1 := by omega
    rw [hX]
    by_cases hk : tl.length + 1 = 1
    · have htl0 : tl = [] := by
        cases tl with
        | nil => rfl
        | cons x xs => simp at hk
      subst htl0
      rw [if_pos hk]
      unfold parseUnsigned
      simp only [List.cons_append, List.nil_append, hcd, if_true, hc0, if_false]
      have ht : takeDigits ('e' :: '+' :: (natDigits X ++ rest)) =
          ([], 'e' :: '+' :: (natDigits X ++ rest)) :=
        takeDigits_append [] _ (by simp) (noDigitAhead_e _)
      rw [ht]
      have hf : parseFraction ('e' :: '+' :: (natDigits X ++ rest)) =
          some ([], 'e' :: '+' :: (natDigits X ++ rest)) := rfl
      simp only [hf, parseExponent_plus _ rest hrd, List.append_nil, hval, List.length_nil,
        Nat.cast_zero, sub_zero]
      have hXe2 : (X : Int) = e := by
        simp at hXe
        omega
      rw [hXe2]
    · rw [if_neg hk]
      have htne : tl ≠ [] := by
        intro h0; subst h0; simp at hk
      unfold parseUnsigned
      simp only [List.take_succ_cons, List.take_zero, List.drop_succ_cons, List.drop_zero,
        List.cons_append, List.nil_append, hcd, if_true, hc0, if_false]
      have ht : takeDigits ('.' :: (tl ++ 'e' :: '+' :: (natDigits X ++ rest))) =
          ([], '.' :: (tl ++ 'e' :: '+' :: (natDigits X ++ rest))) :=
        takeDigits_append [] _ (by simp) (noDigitAhead_dot _)
      simp only [List.append_assoc, List.cons_append] at ht ⊢
      rw [ht]
      simp only [parseFraction_some tl _ htl htne (noDigitAhead_e _),
        parseExponent_plus _ rest hrd, List.cons_append, List.nil_append, hval]
      have hXe2 : (X : Int) - (tl.length : Int) = e := by
        push_cast at hXe
        omega
      rw [hXe2]

theorem roundRatio_nat_sign (neg : Bool) (a v : Nat) (ha : 0 < a)
    (h : roundRatio false a 1 = .fin false v 0) : roundRatio neg a 1 = .fin neg v 0 := by
  by_cases hlt : a < 2 ^ 53
  · rw [roundRatio_small false a ha hlt] at h
    rw [roundRatio_small neg a ha hlt]
    simp only [JSNum.fin.injEq, true_and, and_true] at h
    rw [h]
  · have hge : 2 ^ 53 ≤ a := by omega
    rw [roundRatio_large false a hge] at h
    rw [roundRatio_large neg a hge]
    split_ifs at h with hov
    simp only [JSNum.fin.injEq, true_and, and_true] at h
    rw [if_neg hov, h]

theorem formatDecimal_head (s : Nat) (e : Int) (hs : 0 < s) (he : 0 ≤ e) :
    ∃ c tl, formatDecimal s e = c :: tl ∧ isDigit c = true := by
  obtain ⟨c, tl, hds, _, hcd⟩ := natDigits_head s hs
  unfold formatDecimal
  simp only [hds, List.length_cons]
  split_ifs
  all_goals first
    | omega
    | exact ⟨c, _, rfl, hcd⟩

theorem isDigit_ne_minus (c : Char) (h : isDigit c = true) : c ≠ '-' := by
  intro hc
  subst hc
  exact absurd h (by decide)

theorem parseNumber_numToChars (x : JSNum) (hx : IsIntegerDouble x) (rest : List Char)
    (hrest : numEnd rest) : parseNumber (numToChars x ++ rest) = some (x, rest) := by
  rcases hx with h0 | ⟨neg, v, hv, hxv, hfix⟩
  · subst h0
    show parseNumber ('0' :: rest) = some (JSNum.zero, rest)
    unfold parseNumber
    have h1 : ¬ ('0' = '-') := by decide
    simp only [h1, if_false]
    unfold parseUnsigned
    have h2 : isDigit '0' = true := rfl
    simp only [h2, if_true, parseFraction_none rest hrest, parseExponent_none rest hrest]
    rfl
  · subst hxv
    obtain ⟨s1, s2, s3⟩ := shortestDecimal_sound v hv hfix
    have hv0 : v ≠ 0 := by omega
    have hsign : decToDouble neg (shortestDecimal v 0).1 (shortestDecimal v 0).2 =
        .fin neg v 0 := by
      rw [decToDouble_nonneg _ _ _ s2] at s3 ⊢
      exact roundRatio_nat_sign neg _ v (by positivity) s3
    obtain ⟨c, tl, hfmt, hcd⟩ := formatDecimal_head _ _ s1 s2
    have hpu := parseUnsigned_format neg _ _ s1 s2 rest hrest
    rw [hsign] at hpu
    unfold numToChars
    simp only [hv0, if_false]
    cases neg with
    | true =>
      simp only [if_true, List.cons_append]
      unfold parseNumber
      simp only [if_true]
      exact hpu
    | false =>
      have hb : (false = true) = False := by simp
      simp only [hb, if_false]
      rw [hfmt] at hpu ⊢
      unfold parseNumber
      simp only [List.cons_append, isDigit_ne_minus c hcd, if_false]
      exact hpu

theorem parseInt10_cases (ans : Option String) :
    parseInt10 ans = .nan ∨ ∃ neg n, parseInt10 ans = roundRatio neg n 1 := by
  unfold parseInt10
  dsimp only
  split_ifs with h
  · left; rfl
  · right; exact ⟨_, _, rfl⟩

theorem ageOrDefault_integer (ageAns : Option String) : IsIntegerDouble (ageOrDefault ageAns) := by
  unfold ageOrDefault
  have key : ∀ y : JSNum, (y = .nan ∨ (∃ neg, y = .inf neg) ∨ IsIntegerDouble y) →
      IsIntegerDouble (if y.isFinite then y else JSNum.zero) := by
    intro y hy
    rcases hy with h | ⟨n, h⟩ | h
    · subst h; left; rfl
    · subst h; left; rfl
    · rcases h with h | ⟨neg, v, hv, hxv, hfix⟩
      · subst h; left; rfl
      · subst hxv
        right; exact ⟨neg, v, hv, rfl, hfix⟩
  apply key
  rcases parseInt10_cases ageAns with h | ⟨neg, n, h⟩
  · left; exact h
  · right
    rw [h]
    rcases roundRatio_nat neg n with h1 | h1
    · left; exact ⟨_, h1⟩
    · right; exact h1

/-! ### Reading back a quoted string -/

theorem char_not_surrogate (c : Char) : ¬ (55296 ≤ c.toNat ∧ c.toNat ≤ 57343) := by
  have h := c.valid
  unfold UInt32.isValidChar Nat.isValidChar at h
  show ¬ (55296 ≤ c.val.toNat ∧ c.val.toNat ≤ 57343)
  omega

theorem combineSurrogates_chars (l : List Char) : combineSurrogates (l.map Char.toNat) = l := by
  induction l with
  | nil => rfl
  | cons c l ih =>
    have hc := char_not_surrogate c
    cases l with
    | nil =>
      show (if 55296 ≤ c.toNat ∧ c.toNat ≤ 57343 then [Char.ofNat 65533]
        else [Char.ofNat c.toNat]) = [c]
      rw [if_neg hc, Char.ofNat_toNat]
    | cons d l =>
      show (if 55296 ≤ c.toNat ∧ c.toNat ≤ 56319 ∧ 56320 ≤ d.toNat ∧ d.toNat ≤ 57343 then
          Char.ofNat (65536 + (c.toNat - 55296) * 1024 + (d.toNat - 56320)) ::
            combineSurrogates (l.map Char.toNat)
        else if 55296 ≤ c.toNat ∧ c.toNat ≤ 57343 then
          Char.ofNat 65533 :: combineSurrogates (d.toNat :: l.map Char.toNat)
        else Char.ofNat c.toNat :: combineSurrogates (d.toNat :: l.map Char.toNat)) = c :: d :: l
      have h1 : ¬ (55296 ≤ c.toNat ∧ c.toNat ≤ 56319 ∧ 56320 ≤ d.toNat ∧ d.toNat ≤ 57343) := by
        omega
      rw [if_neg h1, if_neg hc, Char.ofNat_toNat]
      have ih' : combineSurrogates (d.toNat :: l.map Char.toNat) = d :: l := ih
      rw [ih']

theorem hex4_control (n : Nat) (hn : n < 32) :
    hex4 '0' '0' (hexDigit (n / 16)) (hexDigit (n % 16)) = some n := by
  revert n
  decide

theorem parseStringUnits_escape (s rest : List Char) :
    parseStringUnits (escapeChars s ++ dq :: rest) = some (s.map Char.toNat, rest) := by
  induction s with
  | nil =>
    show parseStringUnits (dq :: rest) = some ([], rest)
    unfold parseStringUnits
    simp
  | cons c s ih =>
    have hsplit : escapeChars (c :: s) ++ dq :: rest =
        escapeChar c ++ (escapeChars s ++ dq :: rest) := by
      show (escapeChar c ++ escapeChars s) ++ dq :: rest = _
      rw [List.append_assoc]
    rw [hsplit, List.map_cons]
    have hbd : ¬ (bs = dq) := by decide
    unfold escapeChar
    by_cases h1 : c = dq
    · rw [if_pos h1]
      subst h1
      show parseStringUnits (bs :: dq :: (escapeChars s ++ dq :: rest)) = _
      unfold parseStringUnits
      have hu : ¬ (dq = 'u') := by decide
      have hun : unescape dq = some dq := by decide
      simp only [hbd, if_false, if_true, hu, hun, ih, Option.map_some']
    rw [if_neg h1]
    by_cases h2 : c = bs
    · rw [if_pos h2]
      subst h2
      show parseStringUnits (bs :: bs :: (escapeChars s ++ dq :: rest)) = _
      unfold parseStringUnits
      have hu : ¬ (bs = 'u') := by decide
      have hun : unescape bs = some bs := by decide
      simp only [hbd, if_false, if_true, hu, hun, ih, Option.map_some']
    rw [if_neg h2]
    by_cases h3 : c.toNat = 8
    · rw [if_pos h3]
      show parseStringUnits (bs :: 'b' :: (escapeChars s ++ dq :: rest)) = _
      unfold parseStringUnits
      have hu : ¬ ('b' = 'u') := by decide
      have hun : unescape 'b' = some (Char.ofNat 8) := by decide
      have hv : (Char.ofNat 8).toNat = c.toNat := by rw [h3]; rfl
      simp only [hbd, if_false, if_true, hu, hun, ih, Option.map_some', hv]
    rw [if_neg h3]
    by_cases h4 : c.toNat = 12
    · rw [if_pos h4]
      show parseStringUnits (bs :: 'f' :: (escapeChars s ++ dq :: rest)) = _
      unfold parseStringUnits
      have hu : ¬ ('f' = 'u') := by decide
      have hun : unescape 'f' = some (Char.ofNat 12) := by decide
      have hv : (Char.ofNat 12).toNat = c.toNat := by rw [h4]; rfl
      simp only [hbd, if_false, if_true, hu, hun, ih, Option.map_some', hv]
    rw [if_neg h4]
    by_cases h5 : c.toNat = 10
    · rw [if_pos h5]
      show parseStringUnits (bs :: 'n' :: (escapeChars s ++ dq :: rest)) = _
      unfold parseStringUnits
      have hu : ¬ ('n' = 'u') := by decide
      have hun : unescape 'n' = some (Char.ofNat 10) := by decide
      have hv : (Char.ofNat 10).toNat = c.toNat := by rw [h5]; rfl
      simp only [hbd, if_false, if_true, hu, hun, ih, Option.map_some', hv]
    rw [if_neg h5]
    by_cases h6 : c.toNat = 13
    · rw [if_pos h6]
      show parseStringUnits (bs :: 'r' :: (escapeChars s ++ dq :: rest)) = _
      unfold parseStringUnits
      have hu : ¬ ('r' = 'u') := by decide
      have hun : unescape 'r' = some (Char.ofNat 13) := by decide
      have hv : (Char.ofNat 13).toNat = c.toNat := by rw [h6]; rfl
      simp only [hbd, if_false, if_true, hu, hun, ih, Option.map_some', hv]
    rw [if_neg h6]
    by_cases h7 : c.toNat = 9
    · rw [if_pos h7]
      show parseStringUnits (bs :: 't' :: (escapeChars s ++ dq :: rest)) = _
      unfold parseStringUnits
      have hu : ¬ ('t' = 'u') := by decide
      have hun : unescape 't' = some (Char.ofNat 9) := by decide
      have hv : (Char.ofNat 9).toNat = c.toNat := by rw [h7]; rfl
      simp only [hbd, if_false, if_true, hu, hun, ih, Option.map_some', hv]
    rw [if_neg h7]
    by_cases h8 : c.toNat < 32
    · rw [if_pos h8]
      show parseStringUnits (bs :: 'u' :: '0' :: '0' :: hexDigit (c.toNat / 16) ::
        hexDigit (c.toNat % 16) :: (escapeChars s ++ dq :: rest)) = _
      unfold parseStringUnits
      simp only [hbd, if_false, if_true, hex4_control c.toNat h8, ih, Option.map_some']
    rw [if_neg h8]
    show parseStringUnits (c :: (escapeChars s ++ dq :: rest)) = _
    unfold parseStringUnits
    simp only [h1, h2, h8, if_false, ih, Option.map_some']

theorem parseStringBody_quote (s : String) (rest : List Char) :
    parseStringBody (escapeChars s.toList ++ dq :: rest) = some (s.toList, rest) := by
  unfold parseStringBody
  rw [parseStringUnits_escape]
  simp only [Option.map_some', combineSurrogates_chars]

/-! ### Reading back the identity record -/

theorem skipWs_cons (c : Char) (l : List Char) (h : isJsonWs c = false) :
    skipWs (c :: l) = c :: l := by
  show (if isJsonWs c then dropLeading isJsonWs l else c :: l) = c :: l
  rw [h]; rfl

theorem parseValue_string (f : Nat) (s : String) (rest : List Char) :
    parseValue (f + 1) (quoteChars s ++ rest) = some (.str s, rest) := by
  have hq : quoteChars s ++ rest = dq :: (escapeChars s.toList ++ dq :: rest) := by
    unfold quoteChars
    simp only [List.cons_append, List.append_assoc, List.nil_append]
  rw [hq]
  unfold parseValue
  rw [skipWs_cons dq _ (by decide)]
  have h1 : ¬ (dq = '{') := by decide
  have h2 : ¬ (dq = '[') := by decide
  simp only [h1, h2, if_false, if_true, parseStringBody_quote, Option.map_some']
  rfl

theorem numToChars_head (x : JSNum) (hx : IsIntegerDouble x) :
    ∃ c tl, numToChars x = c :: tl ∧ (isDigit c = true ∨ c = '-') := by
  rcases hx with h0 | ⟨neg, v, hv, hxv, hfix⟩
  · subst h0
    exact ⟨'0', [], rfl, Or.inl rfl⟩
  · subst hxv
    obtain ⟨s1, s2, _⟩ := shortestDecimal_sound v hv hfix
    obtain ⟨c, tl, hfmt, hcd⟩ := formatDecimal_head _ _ s1 s2
    have hv0 : v ≠ 0 := by omega
    unfold numToChars
    simp only [hv0, if_false]
    cases neg with
    | true => exact ⟨'-', _, rfl, Or.inr rfl⟩
    | false =>
      have hb : (false = true) = False := by simp
      simp only [hb, if_false]
      exact ⟨c, tl, hfmt, Or.inl hcd⟩

theorem numHead_plain (c : Char) (h : isDigit c = true ∨ c = '-') :
    isJsonWs c = false ∧ c ≠ '{' ∧ c ≠ '[' ∧ c ≠ dq ∧ c ≠ 't' ∧ c ≠ 'f' ∧ c ≠ 'n' := by
  rcases h with h | h
  · have hb : 48 ≤ c.toNat ∧ c.toNat ≤ 57 := by
      unfold isDigit at h
      simpa using h
    refine ⟨?_, ?_, ?_, ?_, ?_, ?_, ?_⟩
    · unfold isJsonWs
      have h1 : c.toNat ≠ 32 := by omega
      have h2 : c.toNat ≠ 9 := by omega
      have h3 : c.toNat ≠ 10 := by omega
      have h4 : c.toNat ≠ 13 := by omega
      simp [h1, h2, h3, h4]
    all_goals
      intro hc
      subst hc
      revert hb
      decide
  · subst h
    decide

theorem parseValue_number (f : Nat) (x : JSNum) (hx : IsIntegerDouble x) (rest : List Char)
    (hrest : numEnd rest) : parseValue (f + 1) (numToChars x ++ rest) = some (.num x, rest) := by
  obtain ⟨c, tl, hc, hd⟩ := numToChars_head x hx
  obtain ⟨w, p1, p2, p3, p4, p5, p6⟩ := numHead_plain c hd
  have hp := parseNumber_numToChars x hx rest hrest
  rw [hc] at hp ⊢
  unfold parseValue
  rw [List.cons_append, skipWs_cons c _ w]
  simp only [p1, p2, p3, p4, p5, p6, if_false]
  rw [List.cons_append] at hp
  rw [hp]
  rfl

theorem parseMembers_comma (f : Nat) (k : String) (acc : List (String × JSVal))
    (body r5 : List Char) (v : JSVal)
    (hv : parseValue f (body ++ ',' :: r5) = some (v, ',' :: r5)) :
    parseMembers (f + 1) (quoteChars k ++ ':' :: (body ++ ',' :: r5)) acc =
      parseMembers f r5 (setProp acc k v) := by
  have hq : quoteChars k ++ ':' :: (body ++ ',' :: r5) =
      dq :: (escapeChars k.toList ++ dq :: ':' :: (body ++ ',' :: r5)) := by
    unfold quoteChars
    simp only [List.cons_append, List.append_assoc, List.nil_append]
  rw [hq]
  conv_lhs => unfold parseMembers
  rw [skipWs_cons dq _ (by decide)]
  simp only [if_true, parseStringBody_quote]
  rw [skipWs_cons ':' _ (by decide)]
  simp only [if_true, hv]
  rw [skipWs_cons ',' _ (by decide)]
  simp only [if_true]
  rfl

theorem parseMembers_close (f : Nat) (k : String) (acc : List (String × JSVal))
    (body r5 : List Char) (v : JSVal)
    (hv : parseValue f (body ++ '}' :: r5) = some (v, '}' :: r5)) :
    parseMembers (f + 1) (quoteChars k ++ ':' :: (body ++ '}' :: r5)) acc =
      some (.obj (setProp acc k v), r5) := by
  have hq : quoteChars k ++ ':' :: (body ++ '}' :: r5) =
      dq :: (escapeChars k.toList ++ dq :: ':' :: (body ++ '}' :: r5)) := by
    unfold quoteChars
    simp only [List.cons_append, List.append_assoc, List.nil_append]
  rw [hq]
  unfold parseMembers
  rw [skipWs_cons dq _ (by decide)]
  simp only [if_true, parseStringBody_quote]
  rw [skipWs_cons ':' _ (by decide)]
  simp only [if_true, hv]
  rw [skipWs_cons '}' _ (by decide)]
  have h1 : ¬ ('}' = ',') := by decide
  simp only [h1, if_false, if_true]
  rfl

theorem numEnd_comma (l : List Char) : numEnd (',' :: l) := by
  intro c tl h
  simp only [List.cons.injEq] at h
  rw [← h.1]
  decide

theorem stringifyChars_record (name : String) (age : JSNum) (userHash : String)
    (hfin : age.isFinite = true) :
    stringifyChars (identityRecord name age userHash) = recordChars name age userHash := by
  unfold identityRecord recordChars
  simp only [stringifyChars, stringifyProps, hfin, if_true, if_false, List.nil_append,
    List.cons_append, List.append_assoc, List.append_nil]
  simp

theorem parseValue_record (g : Nat) (name : String) (age : JSNum) (userHash : String)
    (hage : IsIntegerDouble age) :
    parseValue (g + 5) (recordChars name age userHash) =
      some (identityRecord name age userHash, []) := by
  have v3 : parseValue (g + 1) (quoteChars userHash ++ '}' :: []) =
      some (.str userHash, '}' :: []) := parseValue_string g userHash _
  have m3 := parseMembers_close (g + 1) "user_hash"
    (setProp (setProp [] "name" (.str name)) "age" (.num age)) _ [] _ v3
  have v2 : parseValue (g + 2) (numToChars age ++ ',' ::
      (quoteChars "user_hash" ++ ':' :: (quoteChars userHash ++ ['}']))) =
      some (.num age, ',' :: (quoteChars "user_hash" ++ ':' :: (quoteChars userHash ++ ['}']))) :=
    parseValue_number (g + 1) age hage _ (numEnd_comma _)
  have m2 := parseMembers_comma (g + 2) "age" (setProp [] "name" (.str name)) _ _ _ v2
  have v1 : parseValue (g + 3) (quoteChars name ++ ',' ::
      (quoteChars "age" ++ ':' :: (numToChars age ++ ',' ::
        (quoteChars "user_hash" ++ ':' :: (quoteChars userHash ++ ['}']))))) =
      some (.str name, ',' :: (quoteChars "age" ++ ':' :: (numToChars age ++ ',' ::
        (quoteChars "user_hash" ++ ':' :: (quoteChars userHash ++ ['}']))))) :=
    parseValue_string (g + 2) name _
  have m1 := parseMembers_comma (g + 3) "name" [] _ _ _ v1
  unfold recordChars
  unfold parseValue
  rw [skipWs_cons '{' _ (by decide)]
  simp only [if_true]
  have hq : quoteChars "name" ++ ':' :: (quoteChars name ++ ',' ::
      (quoteChars "age" ++ ':' :: (numToChars age ++ ',' ::
        (quoteChars "user_hash" ++ ':' :: (quoteChars userHash ++ ['}']))))) =
      dq :: (escapeChars "name".toList ++ dq :: ':' :: (quoteChars name ++ ',' ::
      (quoteChars "age" ++ ':' :: (numToChars age ++ ',' ::
        (quoteChars "user_hash" ++ ':' :: (quoteChars userHash ++ ['}'])))))) := by
    unfold quoteChars
    simp only [List.cons_append, List.append_assoc, List.nil_append]
  rw [hq, skipWs_cons dq _ (by decide)]
  have h1 : ¬ (dq = '}') := by decide
  simp only [h1, if_false]
  rw [← hq, m1, m2, m3]
  rfl

theorem isFinite_of_integer (x : JSNum) (hx : IsIntegerDouble x) : x.isFinite = true := by
  rcases hx with h | ⟨neg, v, _, h, _⟩ <;> subst h <;> rfl

theorem recordChars_length (name : String) (age : JSNum) (userHash : String) :
    4 ≤ (recordChars name age userHash).length := by
  unfold recordChars quoteChars
  simp only [List.length_cons, List.length_append]
  omega

theorem parse_stringify_record (name : String) (age : JSNum) (userHash : String)
    (hage : IsIntegerDouble age) :
    JSON.parse (JSON.stringify (identityRecord name age userHash)) =
      .ok (identityRecord name age userHash) := by
  unfold JSON.parse JSON.stringify
  rw [stringifyChars_record name age userHash (isFinite_of_integer age hage)]
  have hlen := recordChars_length name age userHash
  obtain ⟨g, hg⟩ : ∃ g, (recordChars name age userHash).length + 1 = g + 5 :=
    ⟨(recordChars name age userHash).length - 4, by omega⟩
  show (match parseValue ((recordChars name age userHash).length + 1)
      (recordChars name age userHash) with
    | some (v, rest) => if skipWs rest = [] then Except.ok v else Except.error JSErr.syntaxError
    | none => Except.error JSErr.syntaxError) = _
  rw [hg, parseValue_record g name age userHash hage]
  rfl

theorem stringify_record_ne_empty (name : String) (age : JSNum) (userHash : String) :
    JSON.stringify (identityRecord name age userHash) ≠ "" := by
  intro h
  have h2 : (JSON.stringify (identityRecord name age userHash)).length = 0 := by rw [h]; rfl
  have h3 : (stringifyChars (identityRecord name age userHash)).length = 0 := h2
  unfold identityRecord at h3
  simp [stringifyChars] at h3

theorem getItem_setItem (st : Storage) (k v : String) : getItem (setItem st k v) k = some v := by
  induction st with
  | nil => simp [setItem, getItem]
  | cons p st ih =>
    obtain ⟨k', v'⟩ := p
    by_cases h : k' = k
    · simp [setItem, getItem, h]
    · simp [setItem, getItem, h, ih]

/-! ### The marker binding -/

theorem sameValueZero_symm (a b : JSVal) : sameValueZero a b = sameValueZero b a := by
  cases a <;> cases b <;> simp [sameValueZero, eq_comm]

theorem sameValueZero_trans (k a b : JSVal) (h1 : sameValueZero k a = true)
    (h2 : sameValueZero k b = true) : sameValueZero a b = true := by
  cases k <;> cases a <;> simp [sameValueZero] at h1 <;> cases b <;>
    simp [sameValueZero] at h2 ⊢ <;> simp_all

theorem mapGet_mapSet_self (m : List (JSVal × Marker)) (k : JSVal) (v : Marker)
    (hk : sameValueZero k k = true) : mapGet (mapSet m k v) k = some v := by
  induction m with
  | nil => simp [mapSet, mapGet, hk]
  | cons p m ih =>
    obtain ⟨k0, v0⟩ := p
    by_cases h : sameValueZero k0 k = true
    · simp [mapSet, mapGet, h]
    · simp [mapSet, mapGet, h, ih]

theorem mapGet_mapSet_other (m : List (JSVal × Marker)) (k k' : JSVal) (v : Marker)
    (hne : sameValueZero k' k = false) : mapGet (mapSet m k' v) k = mapGet m k := by
  induction m with
  | nil => simp [mapSet, mapGet, hne]
  | cons p m ih =>
    obtain ⟨k0, v0⟩ := p
    by_cases h : sameValueZero k0 k' = true
    · have h2 : sameValueZero k0 k = false := by
        by_contra hc
        have hc' : sameValueZero k0 k = true := by simpa using hc
        have := sameValueZero_trans k0 k' k h hc'
        rw [hne] at this
        exact absurd this (by decide)
      simp [mapSet, mapGet, h, h2]
    · by_cases h2 : sameValueZero k0 k = true
      · simp [mapSet, mapGet, h, h2]
      · simp [mapSet, mapGet, h, h2, ih]

theorem mapSet_comm_perm (m : List (JSVal × Marker)) (a b : JSVal) (x y : Marker)
    (hne : sameValueZero a b = false) :
    List.Perm (mapSet (mapSet m a x) b y) (mapSet (mapSet m b y) a x) := by
  have hne' : sameValueZero b a = false := by rw [sameValueZero_symm]; exact hne
  induction m with
  | nil =>
    simp only [mapSet, hne, hne']
    exact List.Perm.swap _ _ _
  | cons p m ih =>
    obtain ⟨k0, v0⟩ := p
    by_cases h1 : sameValueZero k0 a = true
    · have h2 : sameValueZero k0 b = false := by
        by_contra hc
        have hc' : sameValueZero k0 b = true := by simpa using hc
        have := sameValueZero_trans k0 a b h1 hc'
        rw [hne] at this
        exact absurd this (by decide)
      simp [mapSet, h1, h2]
    · by_cases h2 : sameValueZero k0 b = true
      · simp [mapSet, h1, h2]
      · simp only [mapSet, h1, h2]
        exact List.Perm.cons _ ih

theorem loadPins_markers (pins : List Pin) : ∀ st : MapState,
    (loadPins st pins).markers = st.markers ++ pins.map markerOf := by
  induction pins with
  | nil => intro st; simp [loadPins]
  | cons p pins ih =>
    intro st
    have := ih (addMarker st p)
    simp only [loadPins, List.foldl_cons] at this ⊢
    rw [this]
    simp [addMarker]

theorem loadPins_binding_keep (pins : List Pin) : ∀ (st : MapState) (k : JSVal) (v : Marker),
    mapGet st.markerById k = some v → (∀ p ∈ pins, sameValueZero p.id k = false) →
    mapGet (loadPins st pins).markerById k = some v := by
  induction pins with
  | nil => intro st k v h _; simpa [loadPins] using h
  | cons p pins ih =>
    intro st k v h hne
    have h1 : mapGet (addMarker st p).markerById k = some v := by
      show mapGet (mapSet st.markerById p.id (markerOf p)) k = some v
      rw [mapGet_mapSet_other _ _ _ _ (hne p (List.mem_cons_self p pins))]
      exact h
    have := ih (addMarker st p) k v h1 (fun q hq => hne q (List.mem_cons_of_mem p hq))
    simpa [loadPins] using this

theorem loadPins_binding (pins : List Pin) : ∀ (st : MapState),
    (∀ p ∈ pins, sameValueZero p.id p.id = true) →
    pins.Pairwise (fun p q => sameValueZero p.id q.id = false) →
    ∀ p ∈ pins, mapGet (loadPins st pins).markerById p.id = some (markerOf p) := by
  induction pins with
  | nil => intro st _ _ p hp; simp at hp
  | cons q pins ih =>
    intro st hprim hpair p hp
    rw [List.pairwise_cons] at hpair
    have hstep : loadPins st (q :: pins) = loadPins (addMarker st q) pins := by
      simp [loadPins]
    rw [hstep]
    rcases List.mem_cons.1 hp with h | h
    · subst h
      apply loadPins_binding_keep
      · exact mapGet_mapSet_self _ _ _ (hprim p (List.mem_cons_self p pins))
      · intro r hr
        rw [sameValueZero_symm]
        exact hpair.1 r hr
    · exact ih (addMarker st q) (fun r hr => hprim r (List.mem_cons_of_mem q hr)) hpair.2 p h

/-! ## The identity gate -/

theorem JSON_parse_not_network (text : String) : JSON.parse text ≠ .error .networkError := by
  unfold JSON.parse
  split
  · split <;> simp
  · simp

/-- C1. On a day with no stored record, a second run of `ensureIdentity` that starts from
the storage the first run left returns what the first run returned (a record), shows no
prompt, sends no request and leaves the storage as it found it, whatever the prompt
responses and the visit outcome of either run. -/
theorem ensureIdentity_same_day_cached (digest : List Nat → List Nat) (env : Browser)
    (origin2 userAgent2 : String) (nameAns ageAns nameAns2 ageAns2 : Option String)
    (visit visit2 : FetchOutcome)
    (hfresh : getItem env.storage ("visit-" ++ env.today) = none) :
    (ensureIdentity digest
        { API := origin2, userAgent := userAgent2, today := env.today,
          storage := (ensureIdentity digest env nameAns ageAns visit).storage }
        nameAns2 ageAns2 visit2).result = (ensureIdentity digest env nameAns ageAns visit).result ∧
    (∃ name age userHash, (ensureIdentity digest env nameAns ageAns visit).result =
        .ok (identityRecord name age userHash)) ∧
    (ensureIdentity digest
        { API := origin2, userAgent := userAgent2, today := env.today,
          storage := (ensureIdentity digest env nameAns ageAns visit).storage }
        nameAns2 ageAns2 visit2).prompts = [] ∧
    (ensureIdentity digest
        { API := origin2, userAgent := userAgent2, today := env.today,
          storage := (ensureIdentity digest env nameAns ageAns visit).storage }
        nameAns2 ageAns2 visit2).requests = [] ∧
    (ensureIdentity digest
        { API := origin2, userAgent := userAgent2, today := env.today,
          storage := (ensureIdentity digest env nameAns ageAns visit).storage }
        nameAns2 ageAns2 visit2).storage = (ensureIdentity digest env nameAns ageAns visit).storage := by
  rw [ensureIdentity_fresh digest env nameAns ageAns visit (Or.inl hfresh)]
  have hget : getItem (freshRun digest env nameAns ageAns).storage ("visit-" ++ env.today) =
      some (JSON.stringify (identityRecord (nameOrDefault nameAns) (ageOrDefault ageAns)
        (hashText digest (hashInput (nameOrDefault nameAns) (ageOrDefault ageAns) env.today)))) :=
    getItem_setItem _ _ _
  rw [ensureIdentity_cached digest
    { API := origin2, userAgent := userAgent2, today := env.today,
      storage := (freshRun digest env nameAns ageAns).storage } nameAns2 ageAns2 visit2 _ hget
    (stringify_record_ne_empty _ _ _)]
  refine ⟨?_, ⟨_, _, _, rfl⟩, rfl, rfl, rfl⟩
  exact parse_stringify_record _ _ _ (ageOrDefault_integer ageAns)

/-- C1, at a concrete input: an empty storage, the answers "Ana" and "30", a visit report
that fails, then a second call on the same day. -/
theorem ensureIdentity_same_day_cached_witness :
    getItem sampleBrowser.storage ("visit-" ++ sampleBrowser.today) = none ∧
    (ensureIdentity sampleDigest
        { API := "http://localhost:8000", userAgent := "Mozilla/5.0",
          today := sampleBrowser.today,
          storage := (ensureIdentity sampleDigest sampleBrowser (some "Ana") (some "30")
            .rejected).storage }
        none none .rejected).prompts = [] :=
  ⟨rfl, (ensureIdentity_same_day_cached sampleDigest sampleBrowser "http://localhost:8000"
    "Mozilla/5.0" (some "Ana") (some "30") none none .rejected .rejected rfl).2.2.1⟩

/-- C2. On a first visit the `user_hash` of the returned record is the hexadecimal
rendering of the digest of the UTF-8 bytes of `name + "|" + age + "|" + date + "|sal"`
(a function of name, age, date and the salt only), and the rendering of every 32-byte
digest has exactly 64 characters, each one of `0-9a-f`. -/
theorem userHash_is_hex_of_digest (digest : List Nat → List Nat) (env : Browser)
    (nameAns ageAns : Option String) (visit : FetchOutcome)
    (hfresh : getItem env.storage ("visit-" ++ env.today) = none) :
    (ensureIdentity digest env nameAns ageAns visit).result =
      .ok (identityRecord (nameOrDefault nameAns) (ageOrDefault ageAns)
        (String.mk (hexRender (digest (encodeUtf8
          (nameOrDefault nameAns ++ "|" ++ numToString (ageOrDefault ageAns) ++ "|" ++
            env.today ++ "|sal").toList))))) ∧
    ∀ bytes : List Nat, bytes.length = 32 → (∀ b ∈ bytes, b < 256) →
      (String.mk (hexRender bytes)).length = 64 ∧
        ∀ c ∈ (String.mk (hexRender bytes)).toList, isLowerHex c = true := by
  constructor
  · rw [ensureIdentity_fresh digest env nameAns ageAns visit (Or.inl hfresh)]
    rfl
  · intro bytes hlen hbytes
    constructor
    · show (hexRender bytes).length = 64
      rw [hexRender_length bytes hbytes, hlen]
    · exact hexRender_lower bytes hbytes

/-- C2, at a concrete input: the first visit of "Ana", aged 30, with the stand-in digest. -/
theorem userHash_is_hex_of_digest_witness :
    getItem sampleBrowser.storage ("visit-" ++ sampleBrowser.today) = none ∧
    (String.mk (hexRender (sampleDigest []))).length = 64 :=
  ⟨rfl, ((userHash_is_hex_of_digest sampleDigest sampleBrowser (some "Ana") (some "30")
    .rejected rfl).2 (sampleDigest []) rfl (by decide)).1⟩

theorem isStrWhiteSpace_digit (c : Char) (h : isDigit c = true) : isStrWhiteSpace c = false := by
  have hb : 48 ≤ c.toNat ∧ c.toNat ≤ 57 := by
    unfold isDigit at h
    simpa using h
  unfold isStrWhiteSpace
  simp only [Bool.or_eq_false_iff, Bool.and_eq_false_iff, decide_eq_false_iff_not]
  omega

theorem parseInt10_numeral (n : Nat) (hn : n < 2 ^ 53) :
    parseInt10 (some (String.mk (natDigits n))) = JSNum.ofNat n := by
  obtain ⟨c, tl, hds⟩ : ∃ c tl, natDigits n = c :: tl := by
    have := natDigits_length_pos n
    cases h : natDigits n with
    | nil => rw [h] at this; simp at this
    | cons c tl => exact ⟨c, tl, rfl⟩
  have hcd : isDigit c = true := natDigits_all n c (by rw [hds]; exact List.mem_cons_self c tl)
  have hws := isStrWhiteSpace_digit c hcd
  have hm : c ≠ '-' := isDigit_ne_minus c hcd
  have hp : c ≠ '+' := by
    intro hc; subst hc; exact absurd hcd (by decide)
  have htake : takeDigits (c :: tl) = (c :: tl, []) := by
    have := takeDigits_append (natDigits n) [] (natDigits_all n) (fun _ _ h => by simp at h)
    rw [List.append_nil, hds] at this
    exact this
  have hval : digitsValue 0 (c :: tl) = n := by rw [← hds]; exact digitsValue_natDigits n
  unfold parseInt10
  have hdrop : dropLeading isStrWhiteSpace (c :: tl) = c :: tl := by
    show (if isStrWhiteSpace c then dropLeading isStrWhiteSpace tl else c :: tl) = c :: tl
    rw [hws]; rfl
  have hor : ¬ (c = '-' ∨ c = '+') := by tauto
  have e1 : (String.mk (natDigits n)).toList = c :: tl := hds
  have hne : ¬ (c :: tl = []) := by simp
  simp only [e1, hdrop, hm, hp, or_self, if_false, htake, decide_False, hval, hne]
  by_cases h0 : n = 0
  · subst h0; rfl
  · exact roundRatio_small false n (by omega) hn

/-- C6. On a first visit the record stored under the day key (and read back from it) has
the name `Invitado` when the name response is missing or empty and the response itself
otherwise; its age is `0` when `parseInt` of the age response is not finite (as for `abc`,
the empty string and a cancelled prompt) and is the integer `parseInt` read otherwise (for a
decimal numeral below `2^53`, its value). -/
theorem first_visit_defaults (digest : List Nat → List Nat) (env : Browser)
    (nameAns ageAns : Option String) (visit : FetchOutcome)
    (hfresh : getItem env.storage ("visit-" ++ env.today) = none) :
    (∃ userHash,
      getItem (ensureIdentity digest env nameAns ageAns visit).storage ("visit-" ++ env.today) =
        some (JSON.stringify
          (identityRecord (nameOrDefault nameAns) (ageOrDefault ageAns) userHash)) ∧
      JSON.parse (JSON.stringify
          (identityRecord (nameOrDefault nameAns) (ageOrDefault ageAns) userHash)) =
        .ok (identityRecord (nameOrDefault nameAns) (ageOrDefault ageAns) userHash)) ∧
    (nameAns = none ∨ nameAns = some "" → nameOrDefault nameAns = "Invitado") ∧
    (∀ s, nameAns = some s → s ≠ "" → nameOrDefault nameAns = s) ∧
    ((parseInt10 ageAns).isFinite = false → ageOrDefault ageAns = JSNum.ofNat 0) ∧
    ((parseInt10 ageAns).isFinite = true → ageOrDefault ageAns = parseInt10 ageAns) ∧
    (∀ n, n < 2 ^ 53 → ageAns = some (String.mk (natDigits n)) →
      ageOrDefault ageAns = JSNum.ofNat n) ∧
    ageOrDefault (some "abc") = JSNum.ofNat 0 ∧ ageOrDefault (some "") = JSNum.ofNat 0 ∧
    ageOrDefault none = JSNum.ofNat 0 := by
  refine ⟨⟨hashText digest (hashInput (nameOrDefault nameAns) (ageOrDefault ageAns) env.today),
    ?_, parse_stringify_record _ _ _ (ageOrDefault_integer ageAns)⟩, ?_, ?_, ?_, ?_,
    ?_, rfl, rfl, rfl⟩
  · rw [ensureIdentity_fresh digest env nameAns ageAns visit (Or.inl hfresh)]
    exact getItem_setItem _ _ _
  · intro h
    rcases h with h | h <;> subst h <;> rfl
  · intro s hs hne
    subst hs
    simp [nameOrDefault, hne]
  · intro h
    unfold ageOrDefault
    rw [h]
    rfl
  · intro h
    unfold ageOrDefault
    rw [h]
    rfl
  · intro n hn hs
    subst hs
    unfold ageOrDefault
    rw [parseInt10_numeral n hn]
    rfl

/-- C6, at a concrete input: a cancelled name prompt and the age response `abc`. -/
theorem first_visit_defaults_witness :
    getItem sampleBrowser.storage ("visit-" ++ sampleBrowser.today) = none ∧
    ∃ userHash,
      getItem (ensureIdentity sampleDigest sampleBrowser none (some "abc") .rejected).storage
          ("visit-" ++ sampleBrowser.today) =
        some (JSON.stringify
          (identityRecord (nameOrDefault none) (ageOrDefault (some "abc")) userHash)) ∧
      JSON.parse (JSON.stringify
          (identityRecord (nameOrDefault none) (ageOrDefault (some "abc")) userHash)) =
        .ok (identityRecord (nameOrDefault none) (ageOrDefault (some "abc")) userHash) :=
  ⟨rfl, (first_visit_defaults sampleDigest sampleBrowser none (some "abc") .rejected rfl).1⟩

/-- C9. The run of `ensureIdentity` (returned value, storage, prompts, request) is the same
whether `POST /visit` is rejected or resolves, it never ends in the network error, and on a
first visit it returns the record and stores its JSON text under the day key even though
the request failed. -/
theorem visit_errors_swallowed (digest : List Nat → List Nat) (env : Browser)
    (nameAns ageAns : Option String) (json : Option JSVal) :
    ensureIdentity digest env nameAns ageAns .rejected =
      ensureIdentity digest env nameAns ageAns (.resolved json) ∧
    (ensureIdentity digest env nameAns ageAns .rejected).result ≠ .error .networkError ∧
    (getItem env.storage ("visit-" ++ env.today) = none →
      ∃ userHash,
        (ensureIdentity digest env nameAns ageAns .rejected).result =
          .ok (identityRecord (nameOrDefault nameAns) (ageOrDefault ageAns) userHash) ∧
        getItem (ensureIdentity digest env nameAns ageAns .rejected).storage
            ("visit-" ++ env.today) =
          some (JSON.stringify
            (identityRecord (nameOrDefault nameAns) (ageOrDefault ageAns) userHash))) := by
  have hcases : (getItem env.storage ("visit-" ++ env.today) = none ∨
      getItem env.storage ("visit-" ++ env.today) = some "") ∨
      ∃ c, getItem env.storage ("visit-" ++ env.today) = some c ∧ c ≠ "" := by
    cases h : getItem env.storage ("visit-" ++ env.today) with
    | none => left; left; rfl
    | some c =>
      by_cases hc : c = ""
      · left; right; rw [hc]
      · right; exact ⟨c, rfl, hc⟩
  refine ⟨?_, ?_, ?_⟩
  · rcases hcases with h | ⟨c, h, hc⟩
    · rw [ensureIdentity_fresh _ _ _ _ _ h, ensureIdentity_fresh _ _ _ _ _ h]
    · rw [ensureIdentity_cached _ _ _ _ _ c h hc, ensureIdentity_cached _ _ _ _ _ c h hc]
  · rcases hcases with h | ⟨c, h, hc⟩
    · rw [ensureIdentity_fresh _ _ _ _ _ h]
      simp [freshRun]
    · rw [ensureIdentity_cached _ _ _ _ _ c h hc]
      exact JSON_parse_not_network c
  · intro h
    rw [ensureIdentity_fresh _ _ _ _ _ (Or.inl h)]
    exact ⟨_, rfl, getItem_setItem _ _ _⟩

/-- C4, refuted as stated: with the text `not json` stored under the day key,
`ensureIdentity` raises a `SyntaxError`; with the text `5` stored there it returns the
number 5, which is no record. -/
theorem ensureIdentity_corrupt_cache_counterexample :
    (ensureIdentity sampleDigest
        { API := "http://localhost:8000", userAgent := "Mozilla/5.0", today := "2025-01-02",
          storage := [("visit-2025-01-02", "not json")] }
        (some "Ana") (some "30") (.resolved none)).result = .error .syntaxError ∧
    (ensureIdentity sampleDigest
        { API := "http://localhost:8000", userAgent := "Mozilla/5.0", today := "2025-01-02",
          storage := [("visit-2025-01-02", "5")] }
        (some "Ana") (some "30") (.resolved none)).result = .ok (.num (JSNum.ofNat 5)) :=
  ⟨rfl, rfl⟩

/-- C4, amended. When the day key holds nothing, the empty string, or a text that
`ensureIdentity` wrote itself, then for every pair of prompt responses (cancellation
included) and every outcome of the visit report `ensureIdentity` returns a record
`{name, age, user_hash}` with a finite age. -/
theorem ensureIdentity_returns_record (digest : List Nat → List Nat) (env : Browser)
    (nameAns ageAns : Option String) (visit : FetchOutcome)
    (hcache : getItem env.storage ("visit-" ++ env.today) = none ∨
      getItem env.storage ("visit-" ++ env.today) = some "" ∨
      ∃ c, getItem env.storage ("visit-" ++ env.today) = some c ∧ WrittenByGate c) :
    ∃ name age userHash,
      (ensureIdentity digest env nameAns ageAns visit).result =
        .ok (identityRecord name age userHash) ∧ age.isFinite = true := by
  rcases hcache with h | h | ⟨c, h, name, ans, userHash, hc⟩
  · rw [ensureIdentity_fresh _ _ _ _ _ (Or.inl h)]
    exact ⟨_, _, _, rfl, isFinite_of_integer _ (ageOrDefault_integer ageAns)⟩
  · rw [ensureIdentity_fresh _ _ _ _ _ (Or.inr h)]
    exact ⟨_, _, _, rfl, isFinite_of_integer _ (ageOrDefault_integer ageAns)⟩
  · subst hc
    rw [ensureIdentity_cached _ _ _ _ _ _ h (stringify_record_ne_empty _ _ _)]
    exact ⟨name, ageOrDefault ans, userHash,
      parse_stringify_record _ _ _ (ageOrDefault_integer ans),
      isFinite_of_integer _ (ageOrDefault_integer ans)⟩

/-- C4 amended, at a concrete input: an empty storage and two cancelled prompts. -/
theorem ensureIdentity_returns_record_witness :
    (getItem sampleBrowser.storage ("visit-" ++ sampleBrowser.today) = none ∨
      getItem sampleBrowser.storage ("visit-" ++ sampleBrowser.today) = some "" ∨
      ∃ c, getItem sampleBrowser.storage ("visit-" ++ sampleBrowser.today) = some c ∧
        WrittenByGate c) ∧
    ∃ name age userHash,
      (ensureIdentity sampleDigest sampleBrowser none none .rejected).result =
        .ok (identityRecord name age userHash) ∧ age.isFinite = true :=
  ⟨Or.inl rfl, ensureIdentity_returns_record sampleDigest sampleBrowser none none .rejected
    (Or.inl rfl)⟩

/-! ## Pins -/

/-- C8. For every pin whose id converts to the string `id` (every string, number, boolean,
`null` or `undefined` id does) and every drag that ends at `(lat, lng)`, the `dragend`
handler sends exactly one request, `PUT <API>/pins/<id>`, whose body is the JSON text of
`{lat, lng}`, whatever the outcome of that request. -/
theorem dragend_one_put (API : String) (pin : Pin) (lat lng : JSNum) (put : FetchOutcome)
    (id : String) (hid : toStr pin.id = .ok id) :
    (dragend API pin lat lng put).requests =
      [{ method := "PUT", url := API ++ "/pins/" ++ id, contentType := "application/json",
         body := JSON.stringify (.obj [("lat", .num lat), ("lng", .num lng)]) }] := by
  unfold dragend
  rw [hid]

/-- C8, at a concrete input: the pin with id `"1"` dragged to (11, 21). -/
theorem dragend_one_put_witness :
    toStr samplePin.id = .ok "1" ∧
    (dragend "http://localhost:8000" samplePin (JSNum.ofNat 11) (JSNum.ofNat 21)
        .rejected).requests =
      [{ method := "PUT", url := "http://localhost:8000" ++ "/pins/" ++ "1",
         contentType := "application/json",
         body := JSON.stringify (.obj [("lat", .num (JSNum.ofNat 11)),
           ("lng", .num (JSNum.ofNat 21))]) }] :=
  ⟨rfl, dragend_one_put "http://localhost:8000" samplePin (JSNum.ofNat 11) (JSNum.ofNat 21)
    .rejected "1" rfl⟩

/-- C3, refuted as stated: when `POST /pins` resolves with a JSON body that carries no id
(here `{}`), the click handler still adds a marker and binds it under `undefined`. -/
theorem createPin_without_id_counterexample :
    (stateAfter MapState.empty
      (mapClick "http://localhost:8000" "📍" MapState.empty (JSNum.ofNat 10) (JSNum.ofNat 20)
        (some "hi") (.resolved (some (.obj [])))).result).markers.length = 1 ∧
    (mapGet (stateAfter MapState.empty
      (mapClick "http://localhost:8000" "📍" MapState.empty (JSNum.ofNat 10) (JSNum.ofNat 20)
        (some "hi") (.resolved (some (.obj [])))).result).markerById .undefined).isSome = true ∧
    MapState.empty.markers.length = 0 :=
  ⟨rfl, rfl, rfl⟩

/-- C3, amended. When `POST /pins` is rejected, or its response body is not JSON, or it is
the JSON value `null`, the map click handler raises and the markers and the id-to-marker
binding stay as they were. -/
theorem createPin_failure_leaves_state (API currentType : String) (st : MapState)
    (lat lng : JSNum) (noteAns : Option String) (post : FetchOutcome)
    (hfail : post = .rejected ∨ post = .resolved none ∨ post = .resolved (some .null)) :
    (∃ e, (mapClick API currentType st lat lng noteAns post).result = .error e) ∧
    (stateAfter st (mapClick API currentType st lat lng noteAns post).result).markers =
      st.markers ∧
    (stateAfter st (mapClick API currentType st lat lng noteAns post).result).markerById =
      st.markerById := by
  rcases hfail with h | h | h <;> subst h <;> exact ⟨⟨_, rfl⟩, rfl, rfl⟩

/-- C3 amended, at a concrete input: a rejected create request on the empty map. -/
theorem createPin_failure_leaves_state_witness :
    ((FetchOutcome.rejected = .rejected ∨ FetchOutcome.rejected = .resolved none ∨
      FetchOutcome.rejected = .resolved (some .null)) ∧
    (stateAfter MapState.empty
      (mapClick "http://localhost:8000" "📍" MapState.empty (JSNum.ofNat 10) (JSNum.ofNat 20)
        (some "hi") .rejected).result).markers = MapState.empty.markers) :=
  ⟨Or.inl rfl, (createPin_failure_leaves_state "http://localhost:8000" "📍" MapState.empty
    (JSNum.ofNat 10) (JSNum.ofNat 20) (some "hi") .rejected (Or.inl rfl)).2.1⟩

theorem getProp_of_truthy (v : JSVal) (h : truthy v = true) : ∃ n, getProp v "note" = .ok n := by
  cases v with
  | undefined => simp [truthy] at h
  | null => simp [truthy] at h
  | bool b => exact ⟨_, rfl⟩
  | num n => exact ⟨_, rfl⟩
  | str s => exact ⟨_, rfl⟩
  | arr e => exact ⟨_, rfl⟩
  | obj p => exact ⟨_, rfl⟩

theorem truthy_of_note (v note : JSVal) (h : getProp v "note" = .ok note)
    (hn : truthy note = true) : truthy v = true := by
  cases v with
  | undefined => simp [getProp] at h
  | null => simp [getProp] at h
  | obj p => rfl
  | arr e => rfl
  | bool b =>
    simp only [getProp, Except.ok.injEq] at h
    subst h; simp [truthy] at hn
  | num n =>
    simp only [getProp, Except.ok.injEq] at h
    subst h; simp [truthy] at hn
  | str s =>
    simp only [getProp, Except.ok.injEq] at h
    subst h; simp [truthy] at hn

theorem clickText_of_info (pin : Pin) (info : JSVal) (h : clickInfo pin = .ok info) :
    (∀ note, getProp info "note" = .ok note → truthy note = true → clickText pin = .ok note) ∧
    ((∀ note, getProp info "note" = .ok note → truthy note = false) →
      clickText pin = .ok (.str fallbackText)) := by
  unfold clickText
  rw [h]
  constructor
  · intro note hnote hn
    have ht := truthy_of_note info note hnote hn
    simp only [ht, if_true, hnote, hn]
  · intro hall
    by_cases ht : truthy info = true
    · obtain ⟨n, hn⟩ := getProp_of_truthy info ht
      have hf := hall n hn
      simp only [ht, if_true, hn, hf]
      rfl
    · have ht' : truthy info = false := by simpa using ht
      simp only [ht', Bool.false_eq_true, if_false]

theorem clickInfo_cases (pin : Pin) :
    (truthy pin.meta = false ∧ clickInfo pin = .ok (.obj [])) ∨
    (truthy pin.meta = true ∧ ∃ e, JSON.parseVal pin.meta = .error e ∧
      clickInfo pin = .ok (.obj [])) ∨
    (truthy pin.meta = true ∧ ∃ info, JSON.parseVal pin.meta = .ok info ∧
      clickInfo pin = .ok info) := by
  unfold clickInfo
  by_cases ht : truthy pin.meta = true
  · right
    cases hp : JSON.parseVal pin.meta with
    | error e => left; exact ⟨ht, e, rfl, by simp [ht, tryCatch]⟩
    | ok info => right; exact ⟨ht, info, rfl, by simp [ht, tryCatch]⟩
  · left
    have ht' : truthy pin.meta = false := by simpa using ht
    exact ⟨ht', by simp [ht']⟩

theorem getProp_empty_note (note : JSVal) (h : getProp (.obj []) "note" = .ok note) :
    truthy note = false := by
  simp only [getProp, lookupProp, Option.getD_none, Except.ok.injEq] at h
  subst h; rfl

/-- C5, refuted as stated: for the meta text `{"note":{"toString":1}}` the parse succeeds,
the note is an object that cannot be converted to a string, and the click handler raises a
`TypeError` while building the popup. -/
theorem click_raises_counterexample :
    markerClick { id := .str "1", type := "📍", lat := JSNum.ofNat 10, lng := JSNum.ofNat 20,
                  meta := .str "\x7b\"note\":\x7b\"toString\":1\x7d\x7d" } =
      .error .typeError :=
  rfl

/-- C5, amended. For every pin and every value of its meta field, computing the popup text
never raises; the text is the note when meta is present, parses and carries a note that is
not empty (`{"note":"hi"}` shows `hi`), and it is `Pin sin descripción` when meta is
absent, fails to parse (`not json`), or carries no note; the handler then shows the text
whenever it converts to a string, which every string does, and raises only when that
conversion fails. -/
theorem click_shows_note_or_fallback (pin : Pin) :
    (∃ text, clickText pin = .ok text) ∧
    (∀ info note, truthy pin.meta = true → JSON.parseVal pin.meta = .ok info →
      getProp info "note" = .ok note → truthy note = true → clickText pin = .ok note) ∧
    (truthy pin.meta = false → clickText pin = .ok (.str fallbackText)) ∧
    ((∃ e, JSON.parseVal pin.meta = .error e) → clickText pin = .ok (.str fallbackText)) ∧
    (∀ info, JSON.parseVal pin.meta = .ok info →
      (∀ note, getProp info "note" = .ok note → truthy note = false) →
      clickText pin = .ok (.str fallbackText)) ∧
    (∀ text t, clickText pin = .ok text → toStr text = .ok t →
      markerClick pin = .ok ("<b>" ++ pin.type ++ "</b><div>" ++ t ++ "</div>")) ∧
    (∀ s, clickText pin = .ok (.str s) →
      markerClick pin = .ok ("<b>" ++ pin.type ++ "</b><div>" ++ s ++ "</div>")) ∧
    (∀ text e, clickText pin = .ok text → toStr text = .error e →
      markerClick pin = .error e) ∧
    (∀ id type lat lng,
      markerClick { id := id, type := type, lat := lat, lng := lng,
                    meta := .str "\x7b\"note\":\"hi\"\x7d" } =
        .ok ("<b>" ++ type ++ "</b><div>" ++ "hi" ++ "</div>")) ∧
    (∀ id type lat lng,
      markerClick { id := id, type := type, lat := lat, lng := lng, meta := .str "not json" } =
        .ok ("<b>" ++ type ++ "</b><div>" ++ fallbackText ++ "</div>")) := by
  have hshow : ∀ text t, clickText pin = .ok text → toStr text = .ok t →
      markerClick pin = .ok ("<b>" ++ pin.type ++ "</b><div>" ++ t ++ "</div>") := by
    intro text t h1 h2
    unfold markerClick
    rw [h1]
    simp only [h2]
  have hfb : ∀ info, clickInfo pin = .ok info →
      (∀ note, getProp info "note" = .ok note → truthy note = false) →
      clickText pin = .ok (.str fallbackText) := fun info h => (clickText_of_info pin info h).2
  have hraise : ∀ text e, clickText pin = .ok text → toStr text = .error e →
      markerClick pin = .error e := by
    intro text e h1 h2
    unfold markerClick
    rw [h1]
    simp only [h2]
  refine ⟨?_, ?_, ?_, ?_, ?_, hshow, fun s h => hshow _ s h rfl, hraise, fun _ _ _ _ => rfl,
    fun _ _ _ _ => rfl⟩
  · rcases clickInfo_cases pin with ⟨_, h⟩ | ⟨_, _, _, h⟩ | ⟨_, info, _, h⟩
    · exact ⟨_, hfb _ h getProp_empty_note⟩
    · exact ⟨_, hfb _ h getProp_empty_note⟩
    · by_cases ht : truthy info = true
      · obtain ⟨n, hn⟩ := getProp_of_truthy info ht
        by_cases hn2 : truthy n = true
        · exact ⟨_, (clickText_of_info pin info h).1 n hn hn2⟩
        · refine ⟨_, hfb info h ?_⟩
          intro note hnote
          rw [hn] at hnote
          simp only [Except.ok.injEq] at hnote
          subst hnote
          simpa using hn2
      · refine ⟨_, hfb info h ?_⟩
        intro note hnote
        by_contra hc
        exact ht (truthy_of_note info note hnote (by simpa using hc))
  · intro info note ht hp hnote hn
    rcases clickInfo_cases pin with ⟨hf, _⟩ | ⟨_, e, he, _⟩ | ⟨_, info', hp', h⟩
    · rw [hf] at ht; exact absurd ht (by decide)
    · rw [he] at hp; exact absurd hp (by simp)
    · rw [hp'] at hp
      simp only [Except.ok.injEq] at hp
      subst hp
      exact (clickText_of_info pin _ h).1 note hnote hn
  · intro hf
    rcases clickInfo_cases pin with ⟨_, h⟩ | ⟨ht, _⟩ | ⟨ht, _⟩
    · exact hfb _ h getProp_empty_note
    · rw [hf] at ht; exact absurd ht (by decide)
    · rw [hf] at ht; exact absurd ht (by decide)
  · rintro ⟨e, he⟩
    rcases clickInfo_cases pin with ⟨_, h⟩ | ⟨_, _, _, h⟩ | ⟨_, info, hp, _⟩
    · exact hfb _ h getProp_empty_note
    · exact hfb _ h getProp_empty_note
    · rw [he] at hp; exact absurd hp (by simp)
  · intro info hp hall
    rcases clickInfo_cases pin with ⟨_, h⟩ | ⟨_, _, _, h⟩ | ⟨_, info', hp', h⟩
    · exact hfb _ h getProp_empty_note
    · exact hfb _ h getProp_empty_note
    · rw [hp'] at hp
      simp only [Except.ok.injEq] at hp
      subst hp
      exact hfb _ h hall

/-- C7, refuted as stated: when two pins of the list share the id `"1"`, the binding maps
that id to the marker of the second pin (at latitude 30), not to the marker rendered for
the first (at latitude 10). -/
theorem loadPins_duplicate_id_counterexample :
    mapGet (loadPins MapState.empty
        [samplePin, { id := .str "1", type := "📍", lat := JSNum.ofNat 30,
                      lng := JSNum.ofNat 40, meta := .null }]).markerById samplePin.id =
      some (markerOf { id := .str "1", type := "📍", lat := JSNum.ofNat 30,
                       lng := JSNum.ofNat 40, meta := .null }) ∧
    (markerOf samplePin).lat = JSNum.ofNat 10 ∧
    (markerOf { id := .str "1", type := "📍", lat := JSNum.ofNat 30,
                lng := JSNum.ofNat 40, meta := .null }).lat = JSNum.ofNat 30 ∧
    JSNum.ofNat 10 ≠ JSNum.ofNat 30 :=
  ⟨rfl, rfl, rfl, by decide⟩

/-- C7, amended. For every list of pins whose ids are primitive values and pairwise
distinct, loading renders exactly one marker per list element, in order, at that element's
`(lat, lng)`, and binds every pin's id to the marker rendered for that pin; for the list
`[{id:"1",type:"📍",lat:10,lng:20,meta:null}]` this is one marker at (10, 20) bound under
`"1"`. -/
theorem loadPins_renders_and_binds (pins : List Pin)
    (hprim : ∀ p ∈ pins, sameValueZero p.id p.id = true)
    (hdistinct : pins.Pairwise (fun p q => sameValueZero p.id q.id = false)) :
    (loadPins MapState.empty pins).markers = pins.map markerOf ∧
    (loadPins MapState.empty pins).markers.length = pins.length ∧
    (loadPins MapState.empty pins).markers.map (fun m => (m.lat, m.lng)) =
      pins.map (fun p => (p.lat, p.lng)) ∧
    (∀ p ∈ pins, mapGet (loadPins MapState.empty pins).markerById p.id = some (markerOf p)) ∧
    (loadPins MapState.empty [samplePin]).markers.map (fun m => (m.lat, m.lng)) =
      [(JSNum.ofNat 10, JSNum.ofNat 20)] ∧
    (loadPins MapState.empty [samplePin]).markerById = [(.str "1", markerOf samplePin)] := by
  have hm : (loadPins MapState.empty pins).markers = pins.map markerOf := by
    rw [loadPins_markers]
    rfl
  refine ⟨hm, ?_, ?_, loadPins_binding pins MapState.empty hprim hdistinct, rfl, rfl⟩
  · rw [hm, List.length_map]
  · rw [hm, List.map_map]
    rfl

/-- C7 amended, at a concrete input: the one-pin list of the load scenario. -/
theorem loadPins_renders_and_binds_witness :
    (∀ p ∈ [samplePin], sameValueZero p.id p.id = true) ∧
    [samplePin].Pairwise (fun p q => sameValueZero p.id q.id = false) ∧
    (loadPins MapState.empty [samplePin]).markers = [samplePin].map markerOf :=
  ⟨fun p hp => by rw [List.mem_singleton.1 hp]; rfl, List.pairwise_singleton _ _,
    (loadPins_renders_and_binds [samplePin]
      (fun p hp => by rw [List.mem_singleton.1 hp]; rfl) (List.pairwise_singleton _ _)).1⟩

theorem clickFinish_resolved (st : MapState) (p : PendingCreate) (v id : JSVal)
    (h : getProp v "id" = .ok id) :
    clickFinish st p (.resolved (some v)) =
      .ok (addMarker st (createdPin p id)) := by
  unfold clickFinish
  simp only [awaitFetch, awaitJson, h]

/-- C10. Two create gestures fired back-to-back with the same pin type, whose requests are
answered with ids that are distinct primitive values: in either order of arrival both
responses are handled without error, the two resulting states hold the same markers and the
same binding entries (as collections), and in both each pin is rendered with its own id,
coordinates and note and is bound under its own id. -/
theorem concurrent_creates_commute (API currentType : String) (st : MapState)
    (lat1 lng1 lat2 lng2 : JSNum) (note1 note2 : Option String) (v1 v2 id1 id2 : JSVal)
    (h1 : getProp v1 "id" = .ok id1) (h2 : getProp v2 "id" = .ok id2)
    (hp1 : sameValueZero id1 id1 = true) (hp2 : sameValueZero id2 id2 = true)
    (hne : sameValueZero id1 id2 = false) :
    ∃ s1 s2 sA sB,
      clickFinish st (clickStart API currentType lat1 lng1 note1).1 (.resolved (some v1)) =
        .ok s1 ∧
      clickFinish s1 (clickStart API currentType lat2 lng2 note2).1 (.resolved (some v2)) =
        .ok sA ∧
      clickFinish st (clickStart API currentType lat2 lng2 note2).1 (.resolved (some v2)) =
        .ok s2 ∧
      clickFinish s2 (clickStart API currentType lat1 lng1 note1).1 (.resolved (some v1)) =
        .ok sB ∧
      sA.markers.Perm sB.markers ∧ sA.markerById.Perm sB.markerById ∧
      markerOf (createdPin (clickStart API currentType lat1 lng1 note1).1 id1) =
        { lat := lat1, lng := lng1, draggable := true, icon := iconFromEmoji currentType,
          pin := { id := id1, type := currentType, lat := lat1, lng := lng1,
                   meta := .str (JSON.stringify (noteMeta (note1.getD ""))) } } ∧
      markerOf (createdPin (clickStart API currentType lat2 lng2 note2).1 id2) =
        { lat := lat2, lng := lng2, draggable := true, icon := iconFromEmoji currentType,
          pin := { id := id2, type := currentType, lat := lat2, lng := lng2,
                   meta := .str (JSON.stringify (noteMeta (note2.getD ""))) } } ∧
      (∀ s, s = sA ∨ s = sB →
        markerOf (createdPin (clickStart API currentType lat1 lng1 note1).1 id1) ∈ s.markers ∧
        markerOf (createdPin (clickStart API currentType lat2 lng2 note2).1 id2) ∈ s.markers ∧
        mapGet s.markerById id1 =
          some (markerOf (createdPin (clickStart API currentType lat1 lng1 note1).1 id1)) ∧
        mapGet s.markerById id2 =
          some (markerOf (createdPin (clickStart API currentType lat2 lng2 note2).1 id2))) := by
  have hne' : sameValueZero id2 id1 = false := by rw [sameValueZero_symm]; exact hne
  refine ⟨_, _, _, _, clickFinish_resolved st _ v1 id1 h1, clickFinish_resolved _ _ v2 id2 h2,
    clickFinish_resolved st _ v2 id2 h2, clickFinish_resolved _ _ v1 id1 h1, ?_, ?_,
    by cases note1 <;> rfl, by cases note2 <;> rfl, ?_⟩
  · simp only [addMarker, List.append_assoc, List.singleton_append]
    exact List.Perm.append_left _ (List.Perm.swap _ _ _)
  · exact mapSet_comm_perm st.markerById id1 id2 _ _ hne
  · intro s hs
    rcases hs with hs | hs <;> subst hs
    · refine ⟨?_, ?_, ?_, ?_⟩
      · simp [addMarker]
      · simp [addMarker]
      · show mapGet (mapSet (mapSet st.markerById id1 _) id2 _) id1 = _
        rw [mapGet_mapSet_other _ _ _ _ hne']
        exact mapGet_mapSet_self _ _ _ hp1
      · exact mapGet_mapSet_self _ _ _ hp2
    · refine ⟨?_, ?_, ?_, ?_⟩
      · simp [addMarker]
      · simp [addMarker]
      · exact mapGet_mapSet_self _ _ _ hp1
      · show mapGet (mapSet (mapSet st.markerById id2 _) id1 _) id2 = _
        rw [mapGet_mapSet_other _ _ _ _ hne]
        exact mapGet_mapSet_self _ _ _ hp2

/-- C10, at a concrete input: two gestures of type `📍` on the empty map, answered with
the ids `"a"` and `"b"`. -/
theorem concurrent_creates_commute_witness :
    getProp (.obj [("id", .str "a")]) "id" = .ok (.str "a") ∧
    getProp (.obj [("id", .str "b")]) "id" = .ok (.str "b") ∧
    sameValueZero (.str "a") (.str "a") = true ∧ sameValueZero (.str "b") (.str "b") = true ∧
    sameValueZero (.str "a") (.str "b") = false ∧
    ∃ s1 s2 sA sB,
      clickFinish MapState.empty
          (clickStart "http://localhost:8000" "📍" (JSNum.ofNat 10) (JSNum.ofNat 20)
            (some "uno")).1 (.resolved (some (.obj [("id", .str "a")]))) = .ok s1 ∧
      clickFinish s1
          (clickStart "http://localhost:8000" "📍" (JSNum.ofNat 30) (JSNum.ofNat 40)
            none).1 (.resolved (some (.obj [("id", .str "b")]))) = .ok sA ∧
      clickFinish MapState.empty
          (clickStart "http://localhost:8000" "📍" (JSNum.ofNat 30) (JSNum.ofNat 40)
            none).1 (.resolved (some (.obj [("id", .str "b")]))) = .ok s2 ∧
      clickFinish s2
          (clickStart "http://localhost:8000" "📍" (JSNum.ofNat 10) (JSNum.ofNat 20)
            (some "uno")).1 (.resolved (some (.obj [("id", .str "a")]))) = .ok sB ∧
      sA.markers.Perm sB.markers ∧ sA.markerById.Perm sB.markerById :=
  ⟨rfl, rfl, rfl, rfl, rfl,
    let ⟨s1, s2, sA, sB, a, b, c, d, e, f, _⟩ :=
      concurrent_creates_commute "http://localhost:8000" "📍" MapState.empty (JSNum.ofNat 10)
        (JSNum.ofNat 20) (JSNum.ofNat 30) (JSNum.ofNat 40) (some "uno") none
        (.obj [("id", .str "a")]) (.obj [("id", .str "b")]) (.str "a") (.str "b")
        rfl rfl rfl rfl rfl
    ⟨s1, s2, sA, sB, a, b, c, d, e, f⟩⟩

end MapaCartografico
